import Mathlib

/-!
# glug: a self-rotating file logger

A shallow embedding of `pkg/logger` (`file_writer.go`, `rotator.go`,
`cancel_reader.go`) together with the properties of its rotation engine.

The operating system is modelled explicitly: a directory maps path names to
inode numbers, open handles refer to inodes, every system call is appended to a
trace, and a schedule of injected faults decides which calls fail for reasons
outside the model (I/O errors, permissions, exhausted descriptors).  Go's
`error` values keep their `Unwrap` chains so that `errors.Is` can be embedded
as written.
-/

namespace Glug

/-! ## Go values -/

/-- One byte of file or stream content. -/
abbrev Byte := UInt8

/-- A Go string used as a path name.  Go compares strings bytewise, which for
UTF-8 text is the lexicographic order of the code points. -/
abbrev PathName := List Char

/-- A single (non-aggregated) Go error value.  The named constructors are the
sentinel values the package refers to; `wrap` is any error whose `Unwrap`
method returns `inner`, such as `*fs.PathError` or the result of
`fmt.Errorf("...%w", inner)`. -/
inductive Err where
  | canceled            -- context.Canceled
  | deadlineExceeded    -- context.DeadlineExceeded
  | eof                 -- io.EOF
  | noProgress          -- io.ErrNoProgress
  | closedPipe          -- io.ErrClosedPipe
  | shortBuffer         -- io.ErrShortBuffer
  | unexpectedEOF       -- io.ErrUnexpectedEOF
  | notExist            -- ENOENT, which satisfies errors.Is(err, os.ErrNotExist)
  | closed              -- os.ErrClosed
  | invalid             -- os.ErrInvalid
  | badPattern          -- filepath.ErrBadPattern
  | errno (code : Nat)  -- any other failure reported by the operating system
  | wrap (op : String) (inner : Err)
  deriving DecidableEq, Repr

/-- A non-nil Go `error`: a single error, or the aggregate built by
`multierr.Append`, which stores its members flattened and in order. -/
inductive Error where
  | single (e : Err)
  | multi (errs : List Err)
  deriving DecidableEq, Repr

/-- A Go `error`; `none` is `nil`. -/
abbrev GoError := Option Error

/-- The walk of `errors.Is` along one error's `Unwrap` chain. -/
def Err.is (target : Err) : Err → Bool
  | .wrap op inner => decide (Err.wrap op inner = target) || Err.is target inner
  | e => decide (e = target)

/-- The members of an error as `multierr` sees them. -/
def Error.errors : Error → List Err
  | .single e => [e]
  | .multi errs => errs

/-- Embedding of `errors.Is(err, target)` for a non-nil `err`: an aggregate
matches when one of its members does. -/
def errorsIs (err : Error) (target : Err) : Bool :=
  match err with
  | .single e => Err.is target e
  | .multi errs => errs.any (Err.is target)

/-- Embedding of `multierr.Append`: `nil` is the unit, and two non-nil errors
are combined into one aggregate holding the members of both, in order. -/
def multierrAppend (left right : GoError) : GoError :=
  match left, right with
  | none, r => r
  | some l, none => some l
  | some l, some r => some (.multi (l.errors ++ r.errors))

/-! ## The operating system -/

/-- An inode: file content and the metadata `stat` reports. -/
structure File where
  data : List Byte
  ctime : Int
  mode : Nat
  deriving DecidableEq, Repr

/-- A file system: directory entries naming inodes, and the inode table.  An
inode number is a position in the table; inodes are never reused. -/
structure FS where
  dir : AList (fun _ : PathName => Nat)
  inodes : List File

/-- The file a path names, if any. -/
def FS.file (fs : FS) (name : PathName) : Option File :=
  match fs.dir.lookup name with
  | none => none
  | some ino => fs.inodes.get? ino

/-- A failure injected into one system call: the error code reported and, for
`write`, how many bytes were transferred before the failure.  The code stands
for any error but ENOENT, which the model reports itself, and only for a path
that names nothing. -/
structure Fault where
  code : Nat
  wrote : Nat
  deriving DecidableEq, Repr

/-- The system calls the package issues. -/
inductive Syscall where
  | stat (name : PathName)
  | openFile (name : PathName) (create append trunc : Bool) (mode : Nat)
  | write (ino : Nat) (buf : List Byte)
  | fsync (ino : Nat)
  | close (ino : Nat)
  | rename (oldName newName : PathName)
  | remove (name : PathName)
  | readDir (pattern : PathName)
  deriving DecidableEq, Repr

/-- The state of the world outside the program: the file system, the wall
clock (nanoseconds, UTC), the outcome schedule of the upcoming system calls
(`none` or an exhausted schedule mean the call is not disturbed), the trace of
the calls made so far, and how much time passes during each of the upcoming
system calls and clock reads (nothing once the schedule is exhausted). -/
structure World where
  fs : FS
  now : Int
  faults : List (Option Fault)
  trace : List Syscall
  ticks : List Nat

/-- Enter a system call: record it, take its scheduled outcome, and let the
time it takes pass. -/
def World.sys (w : World) (call : Syscall) : Option Fault × World :=
  (w.faults.head?.join,
    { w with now := w.now + ((w.ticks.headD 0 : Nat) : Int), faults := w.faults.tail,
             trace := w.trace ++ [call], ticks := w.ticks.tail })

/-- Read the clock (`time.Now`, `time.Since`): the instant read, and the world
in which the time up to the next event has passed. -/
def World.clock (w : World) : Int × World :=
  (w.now, { w with now := w.now + ((w.ticks.headD 0 : Nat) : Int), ticks := w.ticks.tail })

/-- The `*fs.PathError` the `os` package builds around a failure. -/
def pathError (op : String) (e : Err) : Error := .single (.wrap op e)

/-- An `*os.File`: the name it was opened with, its inode, whether it was
opened with `O_APPEND`, its offset, and whether it has been closed. -/
structure OsFile where
  name : PathName
  ino : Nat
  append : Bool
  offset : Nat
  closed : Bool
  deriving DecidableEq, Repr

/-- What `stat` reports and `Open` reads: `Size()` and the change time. -/
structure FileInfo where
  size : Int
  ctime : Int
  deriving DecidableEq, Repr

/-- Embedding of `os.Stat`. -/
def osStat (name : PathName) (w : World) : Except Error FileInfo × World :=
  match w.sys (.stat name) with
  | (some fault, w1) => (.error (pathError "stat" (.errno fault.code)), w1)
  | (none, w1) =>
    match w1.fs.file name with
    | none => (.error (pathError "stat" .notExist), w1)
    | some f => (.ok { size := f.data.length, ctime := f.ctime }, w1)

/-- Embedding of `os.OpenFile(name, O_WRONLY|flags, mode)` for the flag
combinations the package uses.  A new file gets a fresh inode; an existing one
is opened as it is, emptied first under `O_TRUNC`.  The offset starts at 0. -/
def osOpenFile (name : PathName) (create append trunc : Bool) (mode : Nat) (w : World) :
    Except Error OsFile × World :=
  match w.sys (.openFile name create append trunc mode) with
  | (some fault, w1) => (.error (pathError "open" (.errno fault.code)), w1)
  | (none, w1) =>
    match w1.fs.dir.lookup name with
    | some ino =>
      let inodes :=
        if trunc then
          match w1.fs.inodes.get? ino with
          | some f => w1.fs.inodes.set ino { f with data := [], ctime := w1.now }
          | none => w1.fs.inodes
        else w1.fs.inodes
      (.ok { name := name, ino := ino, append := append, offset := 0, closed := false },
        { w1 with fs := { w1.fs with inodes := inodes } })
    | none =>
      if create then
        let ino := w1.fs.inodes.length
        (.ok { name := name, ino := ino, append := append, offset := 0, closed := false },
          { w1 with fs := { dir := w1.fs.dir.insert name ino,
                            inodes := w1.fs.inodes ++ [{ data := [], ctime := w1.now, mode := mode }] } })
      else (.error (pathError "open" .notExist), w1)

/-- The content of a file after `buf` is written at offset `off`; a gap
between the end of the file and the offset reads as zero bytes. -/
def writeAt (data : List Byte) (off : Nat) (buf : List Byte) : List Byte :=
  if buf = [] then data
  else (data ++ List.replicate (off - data.length) 0).take off ++ buf ++ data.drop (off + buf.length)

/-- The number of bytes a `write` of `len` bytes transfers under its
scheduled outcome. -/
def transferred (fault : Option Fault) (len : Nat) : Nat :=
  match fault with
  | none => len
  | some f => min f.wrote len

/-- Embedding of `(*os.File).Write`.  A nil or closed handle fails without a
system call.  Otherwise the bytes the call transfers (all of `buf`, or the
first `wrote` of them when a fault is scheduled) go to the end of the file
under `O_APPEND` and to the handle's offset otherwise. -/
def osFileWrite (file : Option OsFile) (buf : List Byte) (w : World) :
    (Nat × GoError) × Option OsFile × World :=
  match file with
  | none => ((0, some (.single .invalid)), none, w)
  | some h =>
    if h.closed then ((0, some (pathError "write" .closed)), some h, w)
    else
      match w.sys (.write h.ino buf) with
      | (fault, w1) =>
        let n := transferred fault buf.length
        let err : GoError := fault.map (fun f => pathError "write" (.errno f.code))
        match w1.fs.inodes.get? h.ino with
        | none => ((n, err), some h, w1)
        | some f =>
          let data := if h.append then f.data ++ buf.take n else writeAt f.data h.offset (buf.take n)
          let off := if h.append then data.length else h.offset + n
          ((n, err), some { h with offset := off },
            { w1 with fs := { w1.fs with
                inodes := w1.fs.inodes.set h.ino { f with data := data, ctime := w1.now } } })

/-- Embedding of `(*os.File).Sync`. -/
def osFileSync (file : Option OsFile) (w : World) : GoError × World :=
  match file with
  | none => (some (.single .invalid), w)
  | some h =>
    if h.closed then (some (pathError "sync" .closed), w)
    else
      match w.sys (.fsync h.ino) with
      | (some fault, w1) => (some (pathError "sync" (.errno fault.code)), w1)
      | (none, w1) => (none, w1)

/-- Embedding of `(*os.File).Close`: the descriptor is released whether or not
the call reports an error. -/
def osFileClose (file : Option OsFile) (w : World) : GoError × Option OsFile × World :=
  match file with
  | none => (some (.single .invalid), none, w)
  | some h =>
    if h.closed then (some (pathError "close" .closed), some h, w)
    else
      match w.sys (.close h.ino) with
      | (some fault, w1) =>
        (some (pathError "close" (.errno fault.code)), some { h with closed := true }, w1)
      | (none, w1) => (none, some { h with closed := true }, w1)

/-- Embedding of `os.Rename`: the entry `oldName` is moved to `newName`,
replacing an entry already there.  When both names refer to the same file,
as the same entry or as two links to one inode, the call succeeds and changes
nothing. -/
def osRename (oldName newName : PathName) (w : World) : GoError × World :=
  match w.sys (.rename oldName newName) with
  | (some fault, w1) => (some (pathError "rename" (.errno fault.code)), w1)
  | (none, w1) =>
    match w1.fs.dir.lookup oldName with
    | none => (some (pathError "rename" .notExist), w1)
    | some ino =>
      if oldName = newName ∨ w1.fs.dir.lookup newName = some ino then (none, w1)
      else (none, { w1 with fs := { w1.fs with dir := (w1.fs.dir.erase oldName).insert newName ino } })

/-- Embedding of `os.Remove`. -/
def osRemove (name : PathName) (w : World) : GoError × World :=
  match w.sys (.remove name) with
  | (some fault, w1) => (some (pathError "remove" (.errno fault.code)), w1)
  | (none, w1) =>
    match w1.fs.dir.lookup name with
    | none => (some (pathError "remove" .notExist), w1)
    | some _ => (none, { w1 with fs := { w1.fs with dir := w1.fs.dir.erase name } })

/-! ## file_writer.go -/

/-- The state of a `FileWriter`; the lock is left out of the sequential
model.  `file` is the `*os.File` pointer (`none` is nil), `size` the cached
byte count and `created` the cached creation time, in nanoseconds.  `size` is
an `int64` in Go; it counts bytes of one file and stays far from the bounds of
that type, so it is an unbounded integer here. -/
structure FileWriter where
  file : Option OsFile
  size : Int
  created : Int
  deriving DecidableEq, Repr

/-- The zero `time.Time`, in nanoseconds relative to the Unix epoch. -/
def zeroTime : Int := -62135596800000000000

/-- The value of `new(FileWriter)`. -/
def FileWriter.new : FileWriter := { file := none, size := 0, created := zeroTime }

/-- Embedding of `FileWriter.Write`: the counter grows by the count the
handle reports, whether or not it also reports an error. -/
def FileWriter.Write (writer : FileWriter) (buf : List Byte) (w : World) :
    (Nat × GoError) × FileWriter × World :=
  match osFileWrite writer.file buf w with
  | ((n, err), file, w1) => ((n, err), { writer with file := file, size := writer.size + n }, w1)

/-- Embedding of `FileWriter.create`: the counter is reset and the creation
time is read from the clock before the file is opened with
`O_WRONLY|O_CREATE`. -/
def FileWriter.create (_writer : FileWriter) (name : PathName) (mode : Nat) (w : World) :
    GoError × FileWriter × World :=
  match osOpenFile name true false false mode w.clock.2 with
  | (.ok h, w1) => (none, { file := some h, size := 0, created := w.clock.1 }, w1)
  | (.error e, w1) => (some e, { file := none, size := 0, created := w.clock.1 }, w1)

/-- Embedding of `FileWriter.Open`. -/
def FileWriter.Open (writer : FileWriter) (name : PathName) (mode : Nat) (w : World) :
    GoError × FileWriter × World :=
  match osStat name w with
  | (.error e, w1) =>
    if errorsIs e .notExist then writer.create name mode w1
    else (some e, writer, w1)
  | (.ok info, w1) =>
    match osOpenFile name false true false 0 w1 with
    | (.ok h, w2) => (none, { file := some h, size := info.size, created := info.ctime }, w2)
    | (.error e, w2) => (some e, { file := none, size := info.size, created := info.ctime }, w2)

/-- Embedding of `OpenFileWriter`. -/
def OpenFileWriter (name : PathName) (mode : Nat) (w : World) : Except Error FileWriter × World :=
  match FileWriter.new.Open name mode w with
  | (some e, _, w1) => (.error e, w1)
  | (none, writer, w1) => (.ok writer, w1)

/-- Embedding of `FileWriter.Reopen`.  On a nil handle the first step,
`Sync`, already fails, so `file.Name()` is only reached with a handle. -/
def FileWriter.Reopen (writer : FileWriter) (rename : PathName) (mode : Nat) (w : World) :
    GoError × FileWriter × World :=
  match writer.file with
  | none => ((osFileSync none w).1, writer, (osFileSync none w).2)
  | some h =>
    match osFileSync (some h) w with
    | (some e, w1) => (some e, writer, w1)
    | (none, w1) =>
      match osFileClose (some h) w1 with
      | (some e, file, w2) => (some e, { writer with file := file }, w2)
      | (none, file, w2) =>
        match osRename h.name rename w2 with
        | (some e, w3) => (some e, { writer with file := file }, w3)
        | (none, w3) => FileWriter.create { writer with file := file } h.name mode w3

/-- Embedding of `FileWriter.Truncate`: the file is reopened with
`O_WRONLY|O_TRUNC`; no other field of the writer is assigned. -/
def FileWriter.Truncate (writer : FileWriter) (w : World) : GoError × FileWriter × World :=
  match writer.file with
  | none => ((osFileSync none w).1, writer, (osFileSync none w).2)
  | some h =>
    match osFileSync (some h) w with
    | (some e, w1) => (some e, writer, w1)
    | (none, w1) =>
      match osFileClose (some h) w1 with
      | (some e, file, w2) => (some e, { writer with file := file }, w2)
      | (none, _, w2) =>
        match osOpenFile h.name false false true 0 w2 with
        | (.ok h2, w3) => (none, { writer with file := some h2 }, w3)
        | (.error e, w3) => (some e, { writer with file := none }, w3)

/-- Embedding of `FileWriter.Close`. -/
def FileWriter.Close (writer : FileWriter) (w : World) : GoError × FileWriter × World :=
  match osFileSync writer.file w with
  | (e1, w1) =>
    match osFileClose writer.file w1 with
    | (e2, file, w2) => (multierrAppend (multierrAppend none e1) e2, { writer with file := file }, w2)

/-- Embedding of `FileWriter.Created`. -/
def FileWriter.Created (writer : FileWriter) : Int := writer.created

/-- The largest `time.Duration`. -/
def maxDuration : Int := 9223372036854775807

/-- The smallest `time.Duration`. -/
def minDuration : Int := -9223372036854775808

/-- Embedding of `FileWriter.Age`: `time.Since` of the cached creation time
when the clock reads `now`; a difference outside the range of a
`time.Duration` is replaced by the nearest bound. -/
def FileWriter.Age (writer : FileWriter) (now : Int) : Int :=
  max minDuration (min maxDuration (now - writer.Created))

/-- Embedding of `FileWriter.Name`; `none` is the nil dereference of a writer
without a handle. -/
def FileWriter.Name (writer : FileWriter) : Option PathName := writer.file.map OsFile.name

/-- Embedding of `FileWriter.Size`. -/
def FileWriter.Size (writer : FileWriter) : Int := writer.size

/-! ## rotator.go -/

/-- Embedding of `RotatorOptions`.  Sizes are byte counts, `MaxAge` is in
nanoseconds. -/
structure RotatorOptions where
  Enabled : Bool
  MaxSize : Int
  MinSize : Int
  MaxAge : Int
  Count : Int
  Pattern : List Char
  CreateMode : Nat
  deriving DecidableEq, Repr

/-- Library functions the rotator calls and whose definitions lie outside the
package: `timefmt.Format`, and the pattern language of `filepath.Glob`
(`none` for a malformed pattern, else the set of names it matches). -/
structure Lib where
  format : Int → List Char → List Char
  globMatch : PathName → Option (PathName → Bool)

/-- A `Rotator`: its options and its `WriteRotator`, here the `FileWriter`
that `Open` installs. -/
structure Rotator where
  options : RotatorOptions
  writer : FileWriter
  deriving DecidableEq, Repr

/-- Embedding of `Rotator.Mode`. -/
def Rotator.Mode (rotator : Rotator) : Nat := rotator.options.CreateMode

/-- Embedding of `logger.Open`. -/
def Open (name : PathName) (opts : RotatorOptions) (w : World) : Except Error Rotator × World :=
  match OpenFileWriter name opts.CreateMode w with
  | (.error e, w1) => (.error e, w1)
  | (.ok writer, w1) => (.ok { options := opts, writer := writer }, w1)

/-- Embedding of `filepath.Glob`: a malformed pattern is reported; otherwise
the directory is read and the matching names are returned.  Failures while
reading the directory are ignored and leave the result empty. -/
def filepathGlob (lib : Lib) (pattern : PathName) (w : World) : Except Error (List PathName) × World :=
  match lib.globMatch pattern with
  | none => (.error (.single .badPattern), w)
  | some matched =>
    match w.sys (.readDir pattern) with
    | (some _, w1) => (.ok [], w1)
    | (none, w1) => (.ok (w1.fs.dir.keys.filter matched), w1)

/-- Embedding of `Rotator.Versions`; `slices.Sort` is ascending order on
strings.  The outer `none` is the nil dereference in `Name()`. -/
def Rotator.Versions (lib : Lib) (rotator : Rotator) (w : World) :
    Option (Except Error (List PathName) × World) :=
  match rotator.writer.Name with
  | none => none
  | some name =>
    match filepathGlob lib (name ++ ['.', '*']) w with
    | (.error e, w1) => some (.error e, w1)
    | (.ok versions, w1) => some (.ok (versions.insertionSort (· ≤ ·)), w1)

/-- Embedding of `Rotator.NeedsRotation`. -/
def Rotator.NeedsRotation (rotator : Rotator) (now : Int) : Bool :=
  if !rotator.options.Enabled then false
  else
    let size := rotator.writer.Size
    if size ≥ rotator.options.MaxSize then true
    else if rotator.writer.Age now > rotator.options.MaxAge ∧ size ≥ rotator.options.MinSize then true
    else false

/-- The outcome of `Rotate` and of the rotator's `Write`: the returned
values, whether a `Cleanup` goroutine was started, and the new state. -/
structure Outcome (α : Type) where
  ret : α
  err : GoError
  cleanup : Bool
  rotator : Rotator
  world : World

/-- Embedding of `Rotator.Rotate`.  The clock is read once for the age in
`NeedsRotation` and once more for the suffix of the version; where
`NeedsRotation` returns before it computes the age, the first step only lets
time pass.
`go rotator.Cleanup()` is recorded in the outcome; the goroutine itself runs
later, as `Rotator.Cleanup`.  The result is `none` when evaluating
`rotator.Name()` dereferences a nil handle. -/
def Rotator.Rotate (lib : Lib) (rotator : Rotator) (w : World) : Option (Outcome Bool) :=
  if !rotator.NeedsRotation w.clock.1 then
    some { ret := false, err := none, cleanup := false, rotator := rotator, world := w.clock.2 }
  else
    let txn : Option (GoError × FileWriter × World) :=
      if rotator.options.Count = 0 then some (rotator.writer.Truncate w.clock.2)
      else
        match rotator.writer.Name with
        | none => none
        | some name =>
          some (rotator.writer.Reopen
            (name ++ ['.'] ++ lib.format w.clock.2.clock.1 rotator.options.Pattern)
            rotator.Mode w.clock.2.clock.2)
    match txn with
    | none => none
    | some (some e, writer, w1) =>
      some { ret := false, err := some e, cleanup := false,
             rotator := { rotator with writer := writer }, world := w1 }
    | some (none, writer, w1) =>
      some { ret := true, err := none, cleanup := true,
             rotator := { rotator with writer := writer }, world := w1 }

/-- The loop of `Cleanup`: every listed version is passed to `os.Remove` and
the results are accumulated with `multierr.Append`. -/
def removeVersions : List PathName → GoError → World → GoError × World
  | [], err, w => (err, w)
  | version :: rest, err, w =>
    match osRemove version w with
    | (e, w1) => removeVersions rest (multierrAppend err e) w1

/-- Embedding of `Rotator.Cleanup`. -/
def Rotator.Cleanup (lib : Lib) (rotator : Rotator) (w : World) : Option (GoError × World) :=
  if rotator.options.Count < 0 then some (none, w)
  else
    match rotator.Versions lib w with
    | none => none
    | some (.error e, w1) => some (some e, w1)
    | some (.ok versions, w1) =>
      let remove : Int := (versions.length : Int) - rotator.options.Count
      if remove > 0 then some (removeVersions (versions.take remove.toNat) none w1)
      else some (none, w1)

/-- Embedding of the rotator's `Write`. -/
def Rotator.Write (lib : Lib) (rotator : Rotator) (chunk : List Byte) (w : World) :
    Option (Outcome Nat) :=
  match rotator.writer.Write chunk w with
  | ((n, some e), writer, w1) =>
    some { ret := n, err := some e, cleanup := false,
           rotator := { rotator with writer := writer }, world := w1 }
  | ((n, none), writer, w1) =>
    match Rotator.Rotate lib { rotator with writer := writer } w1 with
    | none => none
    | some out => some { ret := n, err := out.err, cleanup := out.cleanup,
                         rotator := out.rotator, world := out.world }

/-! ## cancel_reader.go

The reader runs two goroutines next to its caller.  They are embedded as a
transition system over the shared state: each function below is one atomic
step of one party and returns `none` where that party would block. -/

/-- The unbuffered channel `data`.  A channel that has been closed has no
pending sender: `close` makes every blocked sender panic. -/
structure Chan where
  closed : Bool
  deriving DecidableEq, Repr

/-- Where the `worker` goroutine stands: at the top of its loop, inside the
blocking `src.Read`, blocked in `reader.data <- buffer[:n]` holding a chunk
and the error `src.Read` returned with it, past the send, or returned. -/
inductive Worker where
  | checking
  | reading
  | sending (chunk : List Byte) (err : GoError)
  | sent (err : GoError)
  | exited
  deriving DecidableEq, Repr

/-- What a `Read` call holds between its receive and its return: nothing
when no call is there, the chunk it received, or the fact that the channel was
closed.  The chunk is `buffer[:n]`, a window on the worker's one buffer, so
its bytes are those the buffer holds now, not those it held at the receive. -/
inductive Held where
  | nothing
  | chunk (bytes : List Byte)
  | closed
  deriving DecidableEq, Repr

/-- The state shared by `Read`, `Close`, `worker` and `watcher`: the channel,
the recorded terminal error, the cause of the derived context (`none` while it
is not cancelled), the progress of the two goroutines, and what the `Read`
call in progress holds. -/
structure CancelReader where
  data : Chan
  err : GoError
  cause : GoError
  worker : Worker
  watcherDone : Bool
  held : Held
  deriving DecidableEq, Repr

/-- Embedding of `NewCancelReader` on a context that is not yet cancelled. -/
def NewCancelReader : CancelReader :=
  { data := { closed := false }, err := none, cause := none, worker := .checking,
    watcherDone := false, held := .nothing }

/-- The effect of `src.Read(buffer)` storing `src` at the start of the
worker's buffer on a chunk a `Read` call holds: the bytes of the window that
the new data covers are replaced. -/
def refill (src : List Byte) : Held → Held
  | .chunk bytes => .chunk (src.take bytes.length ++ bytes.drop src.length)
  | held => held

/-- Embedding of the `context.CancelCauseFunc` `reader.stop`, which is also
how a cancellation of the parent context reaches the derived one: the first
cause is kept, and a nil cause stands for `context.Canceled`. -/
def CancelReader.stop (reader : CancelReader) (cause : GoError) : CancelReader :=
  match reader.cause with
  | some _ => reader
  | none => { reader with cause := some (cause.getD (.single .canceled)) }

/-- Embedding of `CancelReader.Close`. -/
def CancelReader.Close (reader : CancelReader) : GoError × CancelReader :=
  (none, reader.stop (some (.single .closedPipe)))

/-- Embedding of `CancelReader.watcher`: it blocks until the context is done,
records the terminal error and closes the channel, which makes a worker
blocked in its send panic and, through its deferred `recover`, return. -/
def CancelReader.watcher (reader : CancelReader) : Option CancelReader :=
  if reader.watcherDone then none
  else
    match reader.cause with
    | none => none
    | some cause =>
      some { reader with
        err :=
          if errorsIs cause .canceled then some (.single .eof)
          else if errorsIs cause .deadlineExceeded then some (.single .noProgress)
          else some cause
        data := { closed := true }
        worker := match reader.worker with
          | .sending _ _ => .exited
          | s => s
        watcherDone := true }

/-- One step of `CancelReader.worker`.  `src` is what the pending `src.Read`
returns: the bytes it put into the 1024-byte buffer, which is the buffer of
every chunk sent before, and its error. -/
def CancelReader.workerStep (reader : CancelReader) (src : List Byte × GoError) :
    Option CancelReader :=
  match reader.worker with
  | .checking =>
    if reader.cause.isSome then some { reader with worker := .exited }
    else some { reader with worker := .reading }
  | .reading =>
    if src.1.length > 0 then
      if reader.data.closed then
        some { reader with worker := .exited, held := refill (src.1.take 1024) reader.held }
      else
        some { reader with worker := .sending (src.1.take 1024) src.2,
                           held := refill (src.1.take 1024) reader.held }
    else some { reader with worker := .sent src.2 }
  | .sending _ _ => none
  | .sent err =>
    match err with
    | some e => some { reader.stop (some e) with worker := .exited }
    | none => some { reader with worker := .checking }
  | .exited => none

/-- The first statement of `CancelReader.Read`, `chunk, ok := <-reader.data`,
of a call made while no other call is in progress.  A chunk offered by the
worker is received, which lets the worker go on; otherwise a closed channel
is reported, and an open one blocks. -/
def CancelReader.receive (reader : CancelReader) : Option CancelReader :=
  match reader.held with
  | .nothing =>
    match reader.worker with
    | .sending chunk err => some { reader with worker := .sent err, held := .chunk chunk }
    | _ =>
      if reader.data.closed then some { reader with held := .closed }
      else none
  | _ => none

/-- The rest of `CancelReader.Read` after the receive: the returned count and
error, the caller's buffer after `copy`, and the new state.  The bytes copied
are those the chunk holds when the copy runs. -/
def CancelReader.finish (reader : CancelReader) (buf : List Byte) :
    Option ((Nat × GoError) × List Byte × CancelReader) :=
  match reader.held with
  | .nothing => none
  | .closed => some ((0, reader.err), buf, { reader with held := .nothing })
  | .chunk chunk =>
    let n := min buf.length chunk.length
    let out := chunk.take n ++ buf.drop n
    if n < chunk.length then
      some ((n, some (.single .shortBuffer)), out, { reader with held := .nothing })
    else some ((n, none), out, { reader with held := .nothing })

/-- Embedding of a `CancelReader.Read` call that runs from its receive to its
return with no step of another goroutine in between.  A call that is
interleaved with the worker is the event `receive`, the worker's steps, and
the event `finish`. -/
def CancelReader.Read (reader : CancelReader) (buf : List Byte) :
    Option ((Nat × GoError) × List Byte × CancelReader) :=
  match reader.receive with
  | none => none
  | some received => received.finish buf

/-- What can happen to a reader next: the context is cancelled with a cause
(from outside, which is also what `stop` does), `Close` is called, the watcher
or the worker takes its step, the caller's `Read` runs from receive to return,
or it runs its receive only, or the rest of a call that has received. -/
inductive Event where
  | cancel (cause : GoError)
  | close
  | watcher
  | worker (src : List Byte × GoError)
  | read (buf : List Byte)
  | receive
  | finish (buf : List Byte)
  deriving DecidableEq, Repr

/-- The state after one event; `none` when the party concerned is blocked or
has returned. -/
def CancelReader.step (reader : CancelReader) : Event → Option CancelReader
  | .cancel cause => some (reader.stop cause)
  | .close => some reader.Close.2
  | .watcher => reader.watcher
  | .worker src => reader.workerStep src
  | .read buf => (reader.Read buf).map (fun r => r.2.2)
  | .receive => reader.receive
  | .finish buf => (reader.finish buf).map (fun r => r.2.2)

/-- The state after a schedule of events, each of which can take place. -/
def CancelReader.run : List Event → CancelReader → Option CancelReader
  | [], reader => some reader
  | ev :: rest, reader =>
    match reader.step ev with
    | none => none
    | some next => CancelReader.run rest next

/-- The terminal error that stands for a cause, as `watcher` assigns it. -/
def terminalOf (cause : Error) : Error :=
  if errorsIs cause .canceled then .single .eof
  else if errorsIs cause .deadlineExceeded then .single .noProgress
  else cause

/-- What a closed channel means for a reader: the watcher has run, no chunk
is pending at the handoff, and the recorded error is the terminal error of the
cause of the context. -/
def Settled (reader : CancelReader) : Prop :=
  reader.data.closed = true →
    reader.watcherDone = true ∧ (∀ chunk err, reader.worker ≠ .sending chunk err) ∧
      ∃ c, reader.cause = some c ∧ reader.err = some (terminalOf c)

/-! ## Sequences of calls and sample states -/

/-- A sequence of `Write` calls on a `FileWriter`, with what each returned. -/
def writeAll : List (List Byte) → FileWriter → World → List (Nat × GoError) × FileWriter × World
  | [], writer, w => ([], writer, w)
  | buf :: rest, writer, w =>
    match writer.Write buf w with
    | (r, writer1, w1) =>
      match writeAll rest writer1 w1 with
      | (rs, writer2, w2) => (r :: rs, writer2, w2)

/-- Every directory entry names an inode of the table. -/
def FS.wf (fs : FS) : Prop := ∀ e ∈ fs.dir.entries, e.2 < fs.inodes.length

instance (fs : FS) : Decidable fs.wf := by unfold FS.wf; infer_instance

/-- The writer's counter agrees with the file: its handle is open on the
inode that `name` refers to, that file is `len` bytes long, the counter is
`len`, and the next write lands at the end of the file. -/
def Tracks (writer : FileWriter) (w : World) (name : PathName) (len : Nat) : Prop :=
  ∃ h f, writer.file = some h ∧ h.closed = false ∧ w.fs.dir.lookup name = some h.ino ∧
    w.fs.inodes.get? h.ino = some f ∧ f.data.length = len ∧ writer.size = (len : Int) ∧
    (h.append = true ∨ h.offset = len)

/-- The path `log`. -/
def sampleLog : PathName := ['l', 'o', 'g']

/-- The twelve bytes of "Hello World" and a newline. -/
def hello : List Byte := [72, 101, 108, 108, 111, 32, 87, 111, 114, 108, 100, 10]

/-- A world whose only file is `log`, holding `hello`. -/
def sampleWorld : World :=
  { fs := { dir := (∅ : AList (fun _ : PathName => Nat)).insert sampleLog 0,
            inodes := [{ data := hello, ctime := 5, mode := 420 }] },
    now := 7, faults := [], trace := [], ticks := [] }

/-- The sample world with a second name, `log.1`, linked to the file of
`log`. -/
def sampleLinked : World :=
  { sampleWorld with
    fs := { sampleWorld.fs with dir := sampleWorld.fs.dir.insert (sampleLog ++ ['.', '1']) 0 } }

/-- The handle of a writer that created `log` and wrote `hello` to it. -/
def sampleHandle : OsFile :=
  { name := sampleLog, ino := 0, append := false, offset := 12, closed := false }

/-- A writer on `log` after writing `hello`. -/
def sampleWriter : FileWriter := { file := some sampleHandle, size := 12, created := 5 }

/-- The sample world with the fourth system call from now failing after
three bytes. -/
def sampleFaulty : World :=
  { sampleWorld with faults := [none, none, none, some { code := 28, wrote := 3 }] }

/-- Library behaviour for the samples: a pattern without conversion
specifications formats to itself, and `name.*` matches the names that extend
`name.`. -/
def sampleLib : Lib :=
  { format := fun _ pattern => pattern,
    globMatch := fun pattern => some (fun name => pattern.dropLast.isPrefixOf name) }

/-- The policy of the package's rotator test, with the suffix `v1`. -/
def sampleOptions : RotatorOptions :=
  { Enabled := true, MaxSize := 12, MinSize := 6, MaxAge := 1000000000, Count := 2,
    Pattern := ['v', '1'], CreateMode := 420 }

/-- A rotator on `log` after `hello` was written. -/
def sampleRotator : Rotator := { options := sampleOptions, writer := sampleWriter }

/-- A policy that is due at every size: `MaxSize` is 0. -/
def alwaysBySize : Rotator :=
  { options := { sampleOptions with MaxSize := 0, Count := 1 }, writer := sampleWriter }

/-- A policy that is due at every age: `MaxAge` is negative and `MinSize` 0. -/
def alwaysByAge : Rotator :=
  { options := { sampleOptions with MaxSize := 12, MinSize := 0, MaxAge := -1, Count := 1 },
    writer := sampleWriter }

/-- The policy of the package's test with `Count` 0: rotation truncates. -/
def truncating : Rotator :=
  { options := { sampleOptions with Count := 0 }, writer := sampleWriter }

/-- The result of calling `Rotate` twice in succession, with nothing in
between: what each call returned. -/
def rotateTwice (lib : Lib) (rotator : Rotator) (w : World) : Option (Bool × Bool) :=
  match Rotator.Rotate lib rotator w with
  | none => none
  | some out1 =>
    match Rotator.Rotate lib out1.rotator out1.world with
    | none => none
    | some out2 => some (out1.ret, out2.ret)

/-- The sample world with a clock that advances: every system call and every
clock read takes one nanosecond. -/
def sampleTicking : World := { sampleWorld with ticks := List.replicate 16 1 }

/-- What `Rotate` yields on the sample rotator under the advancing clock: the
file moved to `log.v1`. -/
def sampleRotated : Outcome Bool :=
  { ret := true, err := none, cleanup := true,
    rotator := { sampleRotator with
      writer := (sampleWriter.Reopen (sampleLog ++ ['.', 'v', '1']) 420
        sampleTicking.clock.2.clock.2).2.1 },
    world := (sampleWriter.Reopen (sampleLog ++ ['.', 'v', '1']) 420
      sampleTicking.clock.2.clock.2).2.2 }

/-- A policy with `MaxAge` 0 and `MinSize` 0: any file older than the instant
of its creation is due. -/
def agedAtOnce : Rotator :=
  { options := { sampleOptions with MinSize := 0, MaxAge := 0, Count := 1 },
    writer := sampleWriter }

/-- The sample world in which the fourth system call from now, the opening
of the new file, fails. -/
def sampleOpenFails : World :=
  { sampleWorld with faults := [none, none, none, some { code := 24, wrote := 0 }] }

/-- A caller's buffer of sixteen zero bytes. -/
def sampleBuf : List Byte := List.replicate 16 0

/-- The schedule that brings a new reader to the point where the worker has
read `hello` from the source and is blocked handing it over. -/
def holdingHello : List Event := [.worker ([], none), .worker (hello, none)]

/-- The reader at that point: the worker offers `hello`, nothing is
cancelled. -/
def sampleHolding : CancelReader := { NewCancelReader with worker := .sending hello none }

/-- The eight bytes of "Goodbye" and a newline, the source's second
delivery. -/
def goodbye : List Byte := [71, 111, 111, 100, 98, 121, 101, 10]

/-- The schedule in which the caller's `Read` receives `hello` and, before
its `copy` runs, the worker completes its send, passes its check, and its
next `src.Read` returns with `goodbye` in the buffer. -/
def overtaken : List Event :=
  holdingHello ++ [.receive, .worker ([], none), .worker ([], none), .worker (goodbye, none)]

/-! ## Cleanup: what the schedule of outcomes makes of the removals -/

/-- What each `os.Remove` of an existing file returns under a schedule of
outcomes: every file paired with the error of its removal, in list order. -/
def removalResults : List PathName → List (Option Fault) → List (PathName × Option Err)
  | [], _ => []
  | v :: rest, faults =>
    (v, (faults.head?.join).map (fun f => Err.wrap "remove" (.errno f.code))) ::
      removalResults rest faults.tail

/-- The error `multierr` yields for a list of single errors appended one by
one to `nil`: `nil` for none, the error itself for one, an aggregate with the
same members in the same order for more. -/
def combine : List Err → GoError
  | [] => none
  | [e] => some (.single e)
  | errs => some (.multi errs)

/-- A directory with the entries of the listed names erased. -/
def eraseAll (names : List PathName) (dir : AList (fun _ : PathName => Nat)) :
    AList (fun _ : PathName => Nat) :=
  names.foldl (fun d v => d.erase v) dir

/-- The versions a file system holds for a pattern, in the order `Versions`
returns them. -/
def versionsOf (matched : PathName → Bool) (fs : FS) : List PathName :=
  (fs.dir.keys.filter matched).insertionSort (· ≤ ·)

/-- A world holding `log`, three versions of it, and an unrelated file. -/
def sampleVersions : World :=
  { fs := { dir := ((((∅ : AList (fun _ : PathName => Nat)).insert sampleLog 0).insert
              (sampleLog ++ ['.', 'b']) 1).insert (sampleLog ++ ['.', 'a']) 2).insert
              (sampleLog ++ ['.', 'c']) 3 |>.insert ['o', 't', 'h', 'e', 'r'] 4,
            inodes := [{ data := hello, ctime := 5, mode := 420 },
                       { data := hello, ctime := 2, mode := 420 },
                       { data := hello, ctime := 1, mode := 420 },
                       { data := hello, ctime := 3, mode := 420 },
                       { data := [], ctime := 0, mode := 420 }] },
    now := 7, faults := [], trace := [], ticks := [] }

/-- The names the sample library's pattern `log.*` matches. -/
def sampleMatched : PathName → Bool :=
  fun name => (sampleLog ++ ['.', '*']).dropLast.isPrefixOf name

/-- A rotator on `log` that retains one version. -/
def retainOne : Rotator :=
  { options := { sampleOptions with Count := 1 }, writer := sampleWriter }

/-- The world of the three versions in which the removals of `log.a` and
`log.c` are going to fail. -/
def sampleDisturbed : World :=
  { sampleVersions with
    faults := [none, some { code := 13, wrote := 0 }, none, some { code := 1, wrote := 0 }] }

/-- The sample world in which the next system call fails after five
bytes. -/
def sampleShort : World := { sampleWorld with faults := [some { code := 28, wrote := 5 }] }

/-- A reader whose source fails with `err` before delivering anything: the
worker has passed its check, the read has returned, and `stop` has been
called with the error. -/
def afterSourceError (err : Error) : Option CancelReader :=
  match NewCancelReader.workerStep ([], none) with
  | none => none
  | some r1 =>
    match r1.workerStep ([], some err) with
    | none => none
    | some r2 => r2.workerStep ([], none)

/-! ## Properties

### System calls -/

theorem sys_fs (w : World) (call : Syscall) : (w.sys call).2.fs = w.fs := rfl

theorem sys_now (w : World) (call : Syscall) : w.now ≤ (w.sys call).2.now := by
  simp [World.sys]

theorem sys_trace (w : World) (call : Syscall) : (w.sys call).2.trace = w.trace ++ [call] := rfl

theorem sys_faults (w : World) (call : Syscall) : (w.sys call).2.faults = w.faults.tail := rfl

theorem sys_fault (w : World) (call : Syscall) : (w.sys call).1 = w.faults.head?.join := rfl

theorem clock_fs (w : World) : w.clock.2.fs = w.fs := rfl

theorem clock_now (w : World) : w.clock.1 = w.now ∧ w.now ≤ w.clock.2.now := by
  simp [World.clock]

theorem clock_trace (w : World) : w.clock.2.trace = w.trace := rfl

theorem clock_faults (w : World) : w.clock.2.faults = w.faults := rfl

/-! ### The rotation decision -/

/-- C1: `NeedsRotation()` is true exactly when rotation is enabled and the
size has reached `MaxSize`, or the age exceeds `MaxAge` while the size has
reached `MinSize`; with rotation disabled it is false whatever size and age
are. -/
theorem needsRotation_iff (rotator : Rotator) (now : Int) :
    (rotator.NeedsRotation now = true ↔
      rotator.options.Enabled = true ∧
        (rotator.writer.Size ≥ rotator.options.MaxSize ∨
          (rotator.writer.Age now > rotator.options.MaxAge ∧
            rotator.writer.Size ≥ rotator.options.MinSize))) ∧
    (rotator.NeedsRotation now && !rotator.options.Enabled) = false := by
  unfold Rotator.NeedsRotation
  cases rotator.options.Enabled <;> simp

/-! ### The file handle -/

theorem osFileSync_fs (file : Option OsFile) (w : World) : (osFileSync file w).2.fs = w.fs := by
  unfold osFileSync
  split
  · rfl
  · split
    · rfl
    · split <;> rename_i hs <;> rw [← sys_fs w (.fsync _), hs]

theorem osFileClose_fs (file : Option OsFile) (w : World) : (osFileClose file w).2.2.fs = w.fs := by
  unfold osFileClose
  split
  · rfl
  · split
    · rfl
    · split <;> rename_i hs <;> rw [← sys_fs w (.close _), hs]

/-- A rename that reports no error leaves the new name referring to the
inode the old name referred to, and changes no inode. -/
theorem osRename_target (a b : PathName) (w : World) (hok : (osRename a b w).1 = none) :
    ∃ ino, w.fs.dir.lookup a = some ino ∧ (osRename a b w).2.fs.dir.lookup b = some ino ∧
      (osRename a b w).2.fs.inodes = w.fs.inodes := by
  unfold osRename at hok ⊢
  have hfs := sys_fs w (.rename a b)
  rcases hs : w.sys (.rename a b) with ⟨fault, w1⟩
  rw [hs] at hfs hok
  simp only at hfs
  cases fault with
  | some fl => simp at hok
  | none =>
    simp only at hok ⊢
    rw [hfs] at hok ⊢
    cases hl : w.fs.dir.lookup a with
    | none => simp [hl] at hok
    | some ino =>
      refine ⟨ino, rfl, ?_⟩
      simp only
      by_cases hsame : a = b ∨ w.fs.dir.lookup b = some ino
      · rw [if_pos hsame]
        simp only [hfs, and_true]
        rcases hsame with hab | hb
        · rw [← hab]; exact hl
        · exact hb
      · rw [if_neg hsame]
        simp [hfs]

/-- A rename that reports no error, to another name that is not a link to the
same file, moved the entry. -/
theorem osRename_moved (a b : PathName) (w : World) (hab : a ≠ b)
    (hlink : w.fs.dir.lookup b ≠ w.fs.dir.lookup a) (hok : (osRename a b w).1 = none) :
    ∃ ino, w.fs.dir.lookup a = some ino ∧
      (osRename a b w).2.fs = { w.fs with dir := (w.fs.dir.erase a).insert b ino } := by
  unfold osRename at hok ⊢
  have hfs := sys_fs w (.rename a b)
  rcases hs : w.sys (.rename a b) with ⟨fault, w1⟩
  rw [hs] at hfs hok
  simp only at hfs
  cases fault with
  | some fl => simp at hok
  | none =>
    simp only at hok ⊢
    rw [hfs] at hok ⊢
    cases hl : w.fs.dir.lookup a with
    | none => simp [hl] at hok
    | some ino =>
      refine ⟨ino, rfl, ?_⟩
      have hsame : ¬ (a = b ∨ w.fs.dir.lookup b = some ino) := by
        rintro (h1 | h2)
        · exact hab h1
        · exact hlink (by rw [h2, hl])
      simp only
      rw [if_neg hsame]

/-- The counter is reset by `create` whether or not the file can be opened. -/
theorem create_size (writer : FileWriter) (name : PathName) (mode : Nat) (w : World) :
    (writer.create name mode w).2.1.size = 0 := by
  unfold FileWriter.create
  split <;> rfl

/-- Creating a file at a path that names nothing makes a fresh empty inode
and opens it at offset 0; the creation time is the instant read from the
clock. -/
theorem create_fresh (writer : FileWriter) (name : PathName) (mode : Nat) (w : World)
    (habsent : w.fs.dir.lookup name = none) (hok : (writer.create name mode w).1 = none) :
    (∃ t, (writer.create name mode w).2.2.fs =
        { dir := w.fs.dir.insert name w.fs.inodes.length,
          inodes := w.fs.inodes ++ [{ data := [], ctime := t, mode := mode }] }) ∧
      (writer.create name mode w).2.1 =
        { file := some { name := name, ino := w.fs.inodes.length, append := false, offset := 0,
                         closed := false },
          size := 0, created := w.now } := by
  unfold FileWriter.create osOpenFile at hok ⊢
  have hfs := sys_fs w.clock.2 (.openFile name true false false mode)
  rcases hs : w.clock.2.sys (.openFile name true false false mode) with ⟨fault, w1⟩
  rw [hs] at hfs hok
  simp only at hfs
  rw [clock_fs] at hfs
  cases fault with
  | some fl => simp at hok
  | none =>
    simp only [hfs, habsent, if_true]
    exact ⟨⟨w1.now, rfl⟩, rfl⟩

/-- Whatever `create` does, a file under another name stays what it was. -/
theorem create_other (writer : FileWriter) (name q : PathName) (mode : Nat) (w : World)
    (f : File) (hq : q ≠ name) (hf : w.fs.file q = some f) :
    (writer.create name mode w).2.2.fs.file q = some f := by
  unfold FileWriter.create osOpenFile
  have hfs := sys_fs w.clock.2 (.openFile name true false false mode)
  rcases hs : w.clock.2.sys (.openFile name true false false mode) with ⟨fault, w1⟩
  rw [hs] at hfs
  simp only at hfs
  rw [clock_fs] at hfs
  cases hl : w.fs.dir.lookup q with
  | none => simp [FS.file, hl] at hf
  | some ino =>
    have hino : w.fs.inodes.get? ino = some f := by simpa [FS.file, hl] using hf
    have hlt : ino < w.fs.inodes.length := by
      rcases Nat.lt_or_ge ino w.fs.inodes.length with hlt | hge
      · exact hlt
      · rw [List.get?_eq_none.mpr hge] at hino; cases hino
    cases fault with
    | some fl =>
      simp only [FS.file, hfs, hl]
      exact hino
    | none =>
      simp only [hfs]
      cases hn : w.fs.dir.lookup name with
      | some ino2 =>
        simp only [FS.file, hl, Bool.false_eq_true, if_false]
        exact hino
      | none =>
        simp only [if_true, FS.file, AList.lookup_insert_ne hq, hl]
        rw [List.get?_eq_getElem?, List.getElem?_append_left hlt, ← List.get?_eq_getElem?]
        exact hino

/-- After a `Reopen` that reports no error, the target names the file the
writer's path named, whether the rename moved the entry or found the target
already linked to that file. -/
theorem reopen_version (writer : FileWriter) (h : OsFile) (f : File) (rename : PathName)
    (mode : Nat) (w : World)
    (hfile : writer.file = some h)
    (hcontent : w.fs.file h.name = some f)
    (hne : rename ≠ h.name)
    (hok : (writer.Reopen rename mode w).1 = none) :
    (writer.Reopen rename mode w).2.2.fs.file rename = some f := by
  unfold FileWriter.Reopen at hok ⊢
  simp only [hfile] at hok ⊢
  have hsfs := osFileSync_fs (some h) w
  rcases hs : osFileSync (some h) w with ⟨e1, w1⟩
  rw [hs] at hsfs hok
  simp only at hsfs
  cases e1 with
  | some e => simp at hok
  | none =>
    simp only at hok ⊢
    have hcfs := osFileClose_fs (some h) w1
    rcases hc : osFileClose (some h) w1 with ⟨e2, file, w2⟩
    rw [hc] at hcfs hok
    simp only at hcfs
    cases e2 with
    | some e => simp at hok
    | none =>
      simp only at hok ⊢
      have hren := osRename_target h.name rename w2
      rcases hr : osRename h.name rename w2 with ⟨e3, w3⟩
      rw [hr] at hren hok
      cases e3 with
      | some e => simp at hok
      | none =>
        simp only at hok hren ⊢
        obtain ⟨ino, hlook, hnew, hinodes⟩ := hren trivial
        rw [hcfs, hsfs] at hlook hinodes
        have hino : w.fs.inodes.get? ino = some f := by
          simpa [FS.file, hlook] using hcontent
        apply create_other _ _ _ _ _ _ hne
        simp only [FS.file, hnew, hinodes]
        exact hino

/-- What a `Reopen` that reports no error has done to the writer's path and
to the writer, when the path named a file and the target is another path that
is not a link to that file. -/
theorem reopen_effect (writer : FileWriter) (h : OsFile) (rename : PathName)
    (mode : Nat) (w : World)
    (hfile : writer.file = some h)
    (hne : rename ≠ h.name)
    (hlink : w.fs.dir.lookup rename ≠ w.fs.dir.lookup h.name)
    (hok : (writer.Reopen rename mode w).1 = none) :
    ((writer.Reopen rename mode w).2.2.fs.file h.name).map File.data = some [] ∧
      (writer.Reopen rename mode w).2.1.size = 0 := by
  unfold FileWriter.Reopen at hok ⊢
  simp only [hfile] at hok ⊢
  have hsfs := osFileSync_fs (some h) w
  rcases hs : osFileSync (some h) w with ⟨e1, w1⟩
  rw [hs] at hsfs hok
  simp only at hsfs
  cases e1 with
  | some e => simp at hok
  | none =>
    simp only at hok ⊢
    have hcfs := osFileClose_fs (some h) w1
    rcases hc : osFileClose (some h) w1 with ⟨e2, file, w2⟩
    rw [hc] at hcfs hok
    simp only at hcfs
    cases e2 with
    | some e => simp at hok
    | none =>
      simp only at hok ⊢
      have hren := osRename_moved h.name rename w2 (Ne.symm hne)
        (by rw [hcfs, hsfs]; exact hlink)
      rcases hr : osRename h.name rename w2 with ⟨e3, w3⟩
      rw [hr] at hren hok
      cases e3 with
      | some e => simp at hok
      | none =>
        simp only at hok hren ⊢
        obtain ⟨ino, hlook, hfs3⟩ := hren trivial
        rw [hcfs, hsfs] at hlook hfs3
        have habsent : w3.fs.dir.lookup h.name = none := by
          rw [hfs3]; simp [AList.lookup_insert_ne (Ne.symm hne)]
        obtain ⟨⟨t, hfs4⟩, hwr⟩ :=
          create_fresh { writer with file := file } h.name mode w3 habsent hok
        refine ⟨?_, ?_⟩
        · rw [hfs4, hfs3]
          simp [FS.file]
        · rw [hwr]

/-- C2, as stated, fails when the rename target is another name of the
writer's own file: with `log.1` a link to the file of `log`, the rename
changes nothing, `Reopen` returns nil, and `log` still holds the twelve bytes
while `Size()` is 0. -/
theorem reopen_linked_counterexample :
    sampleWriter.file = some sampleHandle ∧
      sampleLinked.fs.file sampleHandle.name = some { data := hello, ctime := 5, mode := 420 } ∧
      sampleLog ++ ['.', '1'] ≠ sampleHandle.name ∧
      (sampleWriter.Reopen (sampleLog ++ ['.', '1']) 420 sampleLinked).1 = none ∧
      ((sampleWriter.Reopen (sampleLog ++ ['.', '1']) 420 sampleLinked).2.2.fs.file
        sampleHandle.name).map File.data = some hello ∧
      (sampleWriter.Reopen (sampleLog ++ ['.', '1']) 420 sampleLinked).2.1.Size = 0 := by
  decide

/-- C2, amended: when the file at the writer's path holds some content and
the rename target is a different path that does not refer to that same file,
a `Reopen` that reports no error leaves the target naming that very file,
leaves the writer's path naming an empty file, and leaves `Size()` at 0. -/
theorem reopen_moves_content (writer : FileWriter) (h : OsFile) (f : File) (rename : PathName)
    (mode : Nat) (w : World)
    (hfile : writer.file = some h)
    (hcontent : w.fs.file h.name = some f)
    (hne : rename ≠ h.name)
    (hlink : w.fs.dir.lookup rename ≠ w.fs.dir.lookup h.name)
    (hok : (writer.Reopen rename mode w).1 = none) :
    (writer.Reopen rename mode w).2.2.fs.file rename = some f ∧
      ((writer.Reopen rename mode w).2.2.fs.file h.name).map File.data = some [] ∧
      (writer.Reopen rename mode w).2.1.Size = 0 :=
  ⟨reopen_version writer h f rename mode w hfile hcontent hne hok,
    reopen_effect writer h rename mode w hfile hne hlink hok⟩

theorem reopen_moves_content_witness :
    sampleWriter.file = some sampleHandle ∧
      sampleWorld.fs.file sampleHandle.name = some { data := hello, ctime := 5, mode := 420 } ∧
      sampleLog ++ ['.', '1'] ≠ sampleHandle.name ∧
      sampleWorld.fs.dir.lookup (sampleLog ++ ['.', '1']) ≠
        sampleWorld.fs.dir.lookup sampleHandle.name ∧
      (sampleWriter.Reopen (sampleLog ++ ['.', '1']) 420 sampleWorld).1 = none ∧
      ((sampleWriter.Reopen (sampleLog ++ ['.', '1']) 420 sampleWorld).2.2.fs.file
          (sampleLog ++ ['.', '1']) = some { data := hello, ctime := 5, mode := 420 } ∧
        ((sampleWriter.Reopen (sampleLog ++ ['.', '1']) 420 sampleWorld).2.2.fs.file
          sampleHandle.name).map File.data = some [] ∧
        (sampleWriter.Reopen (sampleLog ++ ['.', '1']) 420 sampleWorld).2.1.Size = 0) :=
  ⟨rfl, by decide, by decide, by decide, by decide,
    reopen_moves_content sampleWriter sampleHandle { data := hello, ctime := 5, mode := 420 }
      (sampleLog ++ ['.', '1']) 420 sampleWorld rfl (by decide) (by decide) (by decide)
      (by decide)⟩

/-! ### The size counter -/

theorem writeAt_end (data buf : List Byte) : writeAt data data.length buf = data ++ buf := by
  unfold writeAt
  split
  · simp_all
  · simp

/-- After a successful `Open` the counter is the length the file had. -/
theorem open_tracks (name : PathName) (mode : Nat) (w : World) (hwf : w.fs.wf)
    (hok : (FileWriter.new.Open name mode w).1 = none) :
    Tracks (FileWriter.new.Open name mode w).2.1 (FileWriter.new.Open name mode w).2.2 name
      (((w.fs.file name).map (fun f => f.data.length)).getD 0) := by
  unfold FileWriter.Open osStat at hok ⊢
  have hfs := sys_fs w (.stat name)
  rcases hs : w.sys (.stat name) with ⟨fault, w1⟩
  rw [hs] at hfs hok
  simp only at hfs
  cases fault with
  | some fl => simp [pathError, errorsIs, Err.is] at hok
  | none =>
    simp only at hok ⊢
    rw [hfs] at hok ⊢
    cases hf : w.fs.file name with
    | none =>
      simp only [hf, pathError, errorsIs, Err.is] at hok ⊢
      rw [if_pos (by simp)] at hok ⊢
      have habsent : w1.fs.dir.lookup name = none := by
        rw [hfs]
        cases hl : w.fs.dir.lookup name with
        | none => rfl
        | some ino =>
          have hmem : (⟨name, ino⟩ : Sigma (fun _ : PathName => Nat)) ∈ w.fs.dir.entries :=
            AList.mem_lookup_iff.mp hl
          have hlt : ino < w.fs.inodes.length := hwf _ hmem
          simp only [FS.file, hl] at hf
          rw [List.get?_eq_none] at hf
          omega
      obtain ⟨⟨t, hfs2⟩, hwr⟩ := create_fresh FileWriter.new name mode w1 habsent hok
      rw [hwr]
      refine ⟨_, { data := [], ctime := t, mode := mode }, rfl, rfl, ?_, ?_, ?_, ?_, ?_⟩
      · rw [hfs2]; simp
      · rw [hfs2]; simp
      · simp
      · simp
      · right; simp
    | some f =>
      simp only [hf] at hok ⊢
      unfold osOpenFile at hok ⊢
      have hfs2 := sys_fs w1 (.openFile name false true false 0)
      rcases hs2 : w1.sys (.openFile name false true false 0) with ⟨fault2, w2⟩
      rw [hs2] at hfs2 hok
      simp only at hfs2
      cases fault2 with
      | some fl => simp at hok
      | none =>
        simp only at hok ⊢
        rw [hfs2, hfs] at hok ⊢
        cases hl : w.fs.dir.lookup name with
        | none => simp [FS.file, hl] at hf
        | some ino =>
          simp only [FS.file, hl] at hf
          simp only [Bool.false_eq_true, if_false]
          refine ⟨_, f, rfl, rfl, ?_, ?_, ?_, ?_, ?_⟩
          · simpa [hfs2, hfs] using hl
          · simpa [hfs2, hfs] using hf
          · simp
          · simp
          · left; rfl

/-- The handle's `Write` adds the count it returns to the counter. -/
theorem write_size (writer : FileWriter) (buf : List Byte) (w : World) :
    (writer.Write buf w).2.1.size = writer.size + ((writer.Write buf w).1.1 : Int) := by
  unfold FileWriter.Write
  rfl

/-- A `Write` keeps the counter in step with the file, by the count it
returns, whether or not it also returns an error. -/
theorem write_tracks (writer : FileWriter) (buf : List Byte) (w : World) (name : PathName)
    (len : Nat) (ht : Tracks writer w name len) :
    Tracks (writer.Write buf w).2.1 (writer.Write buf w).2.2 name
      (len + (writer.Write buf w).1.1) := by
  obtain ⟨h, f, hfile, hclosed, hdir, hino, hlen, hsize, hoff⟩ := ht
  unfold FileWriter.Write osFileWrite
  simp only [hfile, hclosed, Bool.false_eq_true, if_false]
  have hfs := sys_fs w (.write h.ino buf)
  rcases hs : w.sys (.write h.ino buf) with ⟨fault, w1⟩
  rw [hs] at hfs
  simp only at hfs
  simp only [hfs, hino]
  have hlt : h.ino < w.fs.inodes.length := by
    rcases Nat.lt_or_ge h.ino w.fs.inodes.length with hlt | hge
    · exact hlt
    · rw [List.get?_eq_none.mpr hge] at hino; cases hino
  have hn : transferred fault buf.length ≤ buf.length := by
    unfold transferred
    split
    · exact le_refl _
    · exact Nat.min_le_right _ _
  generalize transferred fault buf.length = n at hn ⊢
  have htake : (buf.take n).length = n := by simp [hn]
  refine ⟨_, _, rfl, rfl, hdir,
    (by simp only [List.get?_eq_getElem?]; exact List.getElem?_set_self hlt), ?_, ?_, ?_⟩
  · rcases hoff with happ | hoff
    · simp [happ, htake, hlen]
    · cases happ : h.append
      · simp only [Bool.false_eq_true, if_false]
        rw [hoff, ← hlen, writeAt_end]
        simp [htake]
      · simp [htake, hlen]
  · simp [hsize]
  · rcases hoff with happ | hoff
    · left; exact happ
    · cases happ : h.append
      · right
        simp only [Bool.false_eq_true, if_false]
        rw [hoff]
      · left; rfl

/-- A sequence of `Write` calls keeps the counter in step with the file: it
grows by the sum of the returned counts. -/
theorem writeAll_tracks (bufs : List (List Byte)) (writer : FileWriter) (w : World)
    (name : PathName) (len : Nat) (ht : Tracks writer w name len) :
    Tracks (writeAll bufs writer w).2.1 (writeAll bufs writer w).2.2 name
      (len + ((writeAll bufs writer w).1.map Prod.fst).sum) := by
  induction bufs generalizing writer w len with
  | nil => simpa [writeAll] using ht
  | cons buf rest ih =>
    have h1 := write_tracks writer buf w name len ht
    have h2 := ih _ _ _ h1
    simp only [writeAll, List.map_cons, List.sum_cons]
    rw [← Nat.add_assoc]
    exact h2

/-- C3: after `Open` on a path whose file was `L` bytes long (0 when the
path named nothing), followed by any sequence of `Write` calls, failed ones
included, `Size()` is `L` plus the sum of the returned counts, and that is the
length of the file; every `Write` changes the counter by the count it
returns. -/
theorem size_is_file_length (name : PathName) (mode : Nat) (w : World)
    (bufs : List (List Byte)) (hwf : w.fs.wf)
    (hok : (FileWriter.new.Open name mode w).1 = none) :
    (writeAll bufs (FileWriter.new.Open name mode w).2.1
        (FileWriter.new.Open name mode w).2.2).2.1.Size =
      ((((w.fs.file name).map (fun f => f.data.length)).getD 0 +
        ((writeAll bufs (FileWriter.new.Open name mode w).2.1
          (FileWriter.new.Open name mode w).2.2).1.map Prod.fst).sum : Nat) : Int) ∧
    ((writeAll bufs (FileWriter.new.Open name mode w).2.1
        (FileWriter.new.Open name mode w).2.2).2.2.fs.file name).map (fun f => f.data.length) =
      some (((w.fs.file name).map (fun f => f.data.length)).getD 0 +
        ((writeAll bufs (FileWriter.new.Open name mode w).2.1
          (FileWriter.new.Open name mode w).2.2).1.map Prod.fst).sum) ∧
    ∀ (writer : FileWriter) (buf : List Byte) (w0 : World),
      (writer.Write buf w0).2.1.Size = writer.Size + ((writer.Write buf w0).1.1 : Int) := by
  have ht := writeAll_tracks bufs _ _ name _ (open_tracks name mode w hwf hok)
  obtain ⟨h, f, _, _, hdir, hino, hlen, hsize, _⟩ := ht
  refine ⟨hsize, ?_, fun writer buf w0 => write_size writer buf w0⟩
  simp only [FS.file, hdir, hino, Option.map_some', hlen]

theorem size_is_file_length_witness :
    sampleFaulty.fs.wf ∧ (FileWriter.new.Open sampleLog 420 sampleFaulty).1 = none ∧
      (writeAll [hello, hello] (FileWriter.new.Open sampleLog 420 sampleFaulty).2.1
        (FileWriter.new.Open sampleLog 420 sampleFaulty).2.2).1 =
          [(12, none), (3, some (pathError "write" (.errno 28)))] ∧
      (writeAll [hello, hello] (FileWriter.new.Open sampleLog 420 sampleFaulty).2.1
        (FileWriter.new.Open sampleLog 420 sampleFaulty).2.2).2.1.Size = 27 ∧
      ((writeAll [hello, hello] (FileWriter.new.Open sampleLog 420 sampleFaulty).2.1
        (FileWriter.new.Open sampleLog 420 sampleFaulty).2.2).2.2.fs.file sampleLog).map
          (fun f => f.data.length) = some 27 :=
  ⟨by decide, by decide, by decide,
    (size_is_file_length sampleLog 420 sampleFaulty [hello, hello] (by decide) (by decide)).1,
    by decide⟩

/-! ### Truncation -/

theorem truncate_size (writer : FileWriter) (w : World) :
    (writer.Truncate w).2.1.size = writer.size := by
  unfold FileWriter.Truncate
  repeat (first | rfl | split)

/-- C4: `Truncate` assigns nothing but the handle, so `Size()` afterwards is
what it was before; on the writer that wrote twelve bytes to `log` the call
succeeds and empties the file while `Size()` still returns 12. -/
theorem truncate_keeps_size :
    (∀ (writer : FileWriter) (w : World), (writer.Truncate w).2.1.Size = writer.Size) ∧
      (sampleWriter.Truncate sampleWorld).1 = none ∧
      ((sampleWriter.Truncate sampleWorld).2.2.fs.file sampleLog).map File.data = some [] ∧
      (sampleWriter.Truncate sampleWorld).2.1.Size = 12 :=
  ⟨truncate_size, by decide, by decide, by decide⟩

/-- Opening without `O_CREATE` leaves the directory as it is. -/
theorem osOpenFile_dir (name : PathName) (append trunc : Bool) (mode : Nat) (w : World) :
    (osOpenFile name false append trunc mode w).2.fs.dir = w.fs.dir := by
  unfold osOpenFile
  have hfs := sys_fs w (.openFile name false append trunc mode)
  rcases hs : w.sys (.openFile name false append trunc mode) with ⟨fault, w1⟩
  rw [hs] at hfs
  simp only at hfs
  cases fault with
  | some fl => simp [hfs]
  | none =>
    simp only
    split
    · simp [hfs]
    · simp [hfs]

/-- No directory entry is created or removed by `Truncate`. -/
theorem truncate_dir (writer : FileWriter) (w : World) :
    (writer.Truncate w).2.2.fs.dir = w.fs.dir := by
  unfold FileWriter.Truncate
  cases hfile : writer.file with
  | none => simp [osFileSync]
  | some h =>
    simp only
    have hsfs := osFileSync_fs (some h) w
    rcases hs : osFileSync (some h) w with ⟨e1, w1⟩
    rw [hs] at hsfs
    simp only at hsfs
    cases e1 with
    | some e => simp [hsfs]
    | none =>
      simp only
      have hcfs := osFileClose_fs (some h) w1
      rcases hc : osFileClose (some h) w1 with ⟨e2, file, w2⟩
      rw [hc] at hcfs
      simp only at hcfs
      cases e2 with
      | some e => simp [hcfs, hsfs]
      | none =>
        simp only
        have hd := osOpenFile_dir h.name false true 0 w2
        rcases ho : osOpenFile h.name false false true 0 w2 with ⟨r, w3⟩
        rw [ho] at hd
        simp only at hd
        cases r <;> simp [hd, hcfs, hsfs]

/-- A `Truncate` that reports no error has emptied the file the writer's
path names and has left every file that is not that one as it was. -/
theorem truncate_effect (writer : FileWriter) (h : OsFile) (f : File) (w : World)
    (hfile : writer.file = some h) (hcontent : w.fs.file h.name = some f)
    (hok : (writer.Truncate w).1 = none) :
    ((writer.Truncate w).2.2.fs.file h.name).map File.data = some [] ∧
      ∀ q, w.fs.dir.lookup q ≠ w.fs.dir.lookup h.name →
        (writer.Truncate w).2.2.fs.file q = w.fs.file q := by
  unfold FileWriter.Truncate at hok ⊢
  simp only [hfile] at hok ⊢
  have hsfs := osFileSync_fs (some h) w
  rcases hs : osFileSync (some h) w with ⟨e1, w1⟩
  rw [hs] at hsfs hok
  simp only at hsfs
  cases e1 with
  | some e => simp at hok
  | none =>
    simp only at hok ⊢
    have hcfs := osFileClose_fs (some h) w1
    rcases hc : osFileClose (some h) w1 with ⟨e2, file, w2⟩
    rw [hc] at hcfs hok
    simp only at hcfs
    cases e2 with
    | some e => simp at hok
    | none =>
      simp only at hok ⊢
      unfold osOpenFile at hok ⊢
      have hfs := sys_fs w2 (.openFile h.name false false true 0)
      rcases hso : w2.sys (.openFile h.name false false true 0) with ⟨fault, w3⟩
      rw [hso] at hfs hok
      simp only at hfs
      rw [hcfs, hsfs] at hfs
      cases fault with
      | some fl => simp at hok
      | none =>
        cases hl : w.fs.dir.lookup h.name with
        | none => simp [FS.file, hl] at hcontent
        | some ino =>
          have hino : w.fs.inodes.get? ino = some f := by simpa [FS.file, hl] using hcontent
          have hlt : ino < w.fs.inodes.length := by
            rcases Nat.lt_or_ge ino w.fs.inodes.length with hlt | hge
            · exact hlt
            · rw [List.get?_eq_none.mpr hge] at hino; cases hino
          simp only [hfs, hl, hino, if_true]
          refine ⟨?_, ?_⟩
          · simp [FS.file, hl, hlt]
          · intro q hq
            cases hlq : w.fs.dir.lookup q with
            | none => simp [FS.file, hlq]
            | some j =>
              have hne : ino ≠ j := by
                intro hij
                apply hq
                rw [hlq, ← hij]
              simp [FS.file, hlq, List.getElem?_set_ne hne]

/-- A `Reopen` that reports no error has reset the counter. -/
theorem reopen_size (writer : FileWriter) (rename : PathName) (mode : Nat) (w : World)
    (hok : (writer.Reopen rename mode w).1 = none) :
    (writer.Reopen rename mode w).2.1.size = 0 := by
  unfold FileWriter.Reopen at hok ⊢
  cases hfile : writer.file with
  | none => simp [hfile, osFileSync] at hok
  | some h =>
    simp only [hfile] at hok ⊢
    rcases hs : osFileSync (some h) w with ⟨e1, w1⟩
    rw [hs] at hok
    cases e1 with
    | some e => simp at hok
    | none =>
      simp only at hok ⊢
      rcases hc : osFileClose (some h) w1 with ⟨e2, file, w2⟩
      rw [hc] at hok
      cases e2 with
      | some e => simp at hok
      | none =>
        simp only at hok ⊢
        rcases hr : osRename h.name rename w2 with ⟨e3, w3⟩
        rw [hr] at hok
        cases e3 with
        | some e => simp at hok
        | none => exact create_size _ _ _ _

/-! ### Rotation -/

/-- A version path is never the path of the active file. -/
theorem version_ne (name suffix : List Char) : name ++ ['.'] ++ suffix ≠ name := by
  intro h
  have := congrArg List.length h
  simp at this

/-- C5, as stated, fails on a rotator without a handle: when the opening of
the new file fails, the first `Rotate()` returns false with that error and
leaves `writer.file` nil; with a rotation due again and `Count != 0`, the next
`Rotate()` dereferences nil in `rotator.Name()` and returns nothing. -/
theorem rotate_no_handle_counterexample :
    (Rotator.Rotate sampleLib alwaysBySize sampleOpenFails).map
        (fun out => (out.ret, out.err, out.rotator.writer.file,
          out.rotator.NeedsRotation out.world.now, decide (out.rotator.options.Count ≠ 0))) =
      some (false, some (pathError "open" (.errno 24)), none, true, true) ∧
    ((Rotator.Rotate sampleLib alwaysBySize sampleOpenFails).bind
        (fun out => Rotator.Rotate sampleLib out.rotator out.world)).isNone = true := by
  decide

/-- C5, amended: `Rotate()` returns `(false, nil)` and leaves the rotator,
the files and the system-call trace as they were when no rotation is due.
When one is due and `Count == 0` its result is that of `Truncate`, which adds
and removes no directory entry and, when it succeeds, empties the active file
and leaves every other file alone.  When one is due, `Count != 0` and the
writer holds a handle, its result is that of `Reopen` to the name followed by
a dot and the formatted time, after which that version names the file that was
active.  In both cases it returns true and starts `Cleanup` exactly when the
transaction reports no error, and otherwise returns false with that error. -/
theorem rotate_cases (lib : Lib) (rotator : Rotator) (w : World) :
    (rotator.NeedsRotation w.now = false →
      Rotator.Rotate lib rotator w =
        some { ret := false, err := none, cleanup := false, rotator := rotator,
               world := w.clock.2 } ∧
      w.clock.2.fs = w.fs ∧ w.clock.2.trace = w.trace) ∧
    (rotator.NeedsRotation w.now = true → rotator.options.Count = 0 →
      Rotator.Rotate lib rotator w =
        some { ret := (rotator.writer.Truncate w.clock.2).1.isNone,
               err := (rotator.writer.Truncate w.clock.2).1,
               cleanup := (rotator.writer.Truncate w.clock.2).1.isNone,
               rotator := { rotator with writer := (rotator.writer.Truncate w.clock.2).2.1 },
               world := (rotator.writer.Truncate w.clock.2).2.2 } ∧
      (rotator.writer.Truncate w.clock.2).2.2.fs.dir = w.fs.dir ∧
      ∀ (h : OsFile) (f : File), rotator.writer.file = some h → w.fs.file h.name = some f →
        (rotator.writer.Truncate w.clock.2).1 = none →
        ((rotator.writer.Truncate w.clock.2).2.2.fs.file h.name).map File.data = some [] ∧
          ∀ q, w.fs.dir.lookup q ≠ w.fs.dir.lookup h.name →
            (rotator.writer.Truncate w.clock.2).2.2.fs.file q = w.fs.file q) ∧
    (∀ h : OsFile, rotator.writer.file = some h →
      rotator.NeedsRotation w.now = true → rotator.options.Count ≠ 0 →
      Rotator.Rotate lib rotator w =
        some { ret := (rotator.writer.Reopen
                 (h.name ++ ['.'] ++ lib.format w.clock.2.now rotator.options.Pattern)
                 rotator.Mode w.clock.2.clock.2).1.isNone,
               err := (rotator.writer.Reopen
                 (h.name ++ ['.'] ++ lib.format w.clock.2.now rotator.options.Pattern)
                 rotator.Mode w.clock.2.clock.2).1,
               cleanup := (rotator.writer.Reopen
                 (h.name ++ ['.'] ++ lib.format w.clock.2.now rotator.options.Pattern)
                 rotator.Mode w.clock.2.clock.2).1.isNone,
               rotator := { rotator with writer := (rotator.writer.Reopen
                 (h.name ++ ['.'] ++ lib.format w.clock.2.now rotator.options.Pattern)
                 rotator.Mode w.clock.2.clock.2).2.1 },
               world := (rotator.writer.Reopen
                 (h.name ++ ['.'] ++ lib.format w.clock.2.now rotator.options.Pattern)
                 rotator.Mode w.clock.2.clock.2).2.2 } ∧
      ∀ f : File, w.fs.file h.name = some f →
        (rotator.writer.Reopen
          (h.name ++ ['.'] ++ lib.format w.clock.2.now rotator.options.Pattern)
          rotator.Mode w.clock.2.clock.2).1 = none →
        (rotator.writer.Reopen
            (h.name ++ ['.'] ++ lib.format w.clock.2.now rotator.options.Pattern)
            rotator.Mode w.clock.2.clock.2).2.2.fs.file
            (h.name ++ ['.'] ++ lib.format w.clock.2.now rotator.options.Pattern) = some f) := by
  refine ⟨?_, ?_, ?_⟩
  · intro hno
    have hno2 : rotator.NeedsRotation w.clock.1 = false := hno
    exact ⟨by simp [Rotator.Rotate, hno2], rfl, rfl⟩
  · intro hdue hzero
    have hdue2 : rotator.NeedsRotation w.clock.1 = true := hdue
    refine ⟨?_, truncate_dir _ _, ?_⟩
    · simp only [Rotator.Rotate, hdue2, hzero]
      rcases ht : rotator.writer.Truncate w.clock.2 with ⟨e, writer, w1⟩
      cases e <;> simp
    · intro h f hfile hf hok
      exact truncate_effect rotator.writer h f w.clock.2 hfile hf hok
  · intro h hfile hdue hcount
    have hdue2 : rotator.NeedsRotation w.clock.1 = true := hdue
    refine ⟨?_, ?_⟩
    · have hnow : w.clock.2.clock.1 = w.clock.2.now := rfl
      simp only [Rotator.Rotate, hdue2, hcount, FileWriter.Name, hfile, hnow]
      rcases ht : rotator.writer.Reopen
        (h.name ++ ['.'] ++ lib.format w.clock.2.now rotator.options.Pattern) rotator.Mode
        w.clock.2.clock.2 with ⟨e, writer, w1⟩
      cases e <;> simp_all
    · intro f hf hok
      exact reopen_version rotator.writer h f _ rotator.Mode w.clock.2.clock.2 hfile hf
        (version_ne _ _) hok

theorem rotate_cases_witness :
    (sampleRotator.writer.file = some sampleHandle ∧
      sampleRotator.NeedsRotation sampleTicking.now = true ∧
      sampleRotator.options.Count ≠ 0 ∧ truncating.options.Count = 0) ∧
    (Rotator.Rotate sampleLib sampleRotator sampleTicking).map
        (fun out => (out.ret, out.err, out.cleanup)) = some (true, none, true) ∧
    (Rotator.Rotate sampleLib sampleRotator sampleTicking).map
        (fun out => ((out.world.fs.file sampleLog).map File.data,
          (out.world.fs.file (sampleLog ++ ['.', 'v', '1'])).map File.data)) =
      some (some [], some hello) ∧
    (Rotator.Rotate sampleLib truncating sampleTicking).map
        (fun out => (out.ret, out.err, out.cleanup)) = some (true, none, true) ∧
    (Rotator.Rotate sampleLib truncating sampleTicking).map
        (fun out => (out.world.fs.dir.keys, (out.world.fs.file sampleLog).map File.data)) =
      some ([sampleLog], some []) ∧
    (sampleRotator.writer.Reopen
        (sampleHandle.name ++ ['.'] ++
          sampleLib.format sampleTicking.clock.2.now sampleRotator.options.Pattern)
        sampleRotator.Mode sampleTicking.clock.2.clock.2).2.2.fs.file
        (sampleHandle.name ++ ['.'] ++
          sampleLib.format sampleTicking.clock.2.now sampleRotator.options.Pattern) =
      some { data := hello, ctime := 5, mode := 420 } ∧
    ((truncating.writer.Truncate sampleTicking.clock.2).2.2.fs.file sampleHandle.name).map
      File.data = some [] :=
  ⟨⟨rfl, by decide, by decide, by decide⟩, by decide, by decide, by decide, by decide,
    ((rotate_cases sampleLib sampleRotator sampleTicking).2.2 sampleHandle rfl
      (by decide) (by decide)).2 { data := hello, ctime := 5, mode := 420 }
      (by decide) (by decide),
    (((rotate_cases sampleLib truncating sampleTicking).2.1 (by decide) (by decide)).2.2
      sampleHandle { data := hello, ctime := 5, mode := 420 } rfl (by decide) (by decide)).1⟩

/-- C6, as stated, fails: with `MaxSize` 0, and with a negative `MaxAge` and
`MinSize` 0, a rotation is due again right after `Reopen`; with `MaxAge` 0 and
`MinSize` 0 it is due again as soon as the clock has moved past the instant
`create` read; with `Count` 0 the counter survives `Truncate` and the rotation
that was due by size stays due.  In each case both of two successive calls
return true. -/
theorem rotate_twice_counterexample :
    rotateTwice sampleLib alwaysBySize sampleWorld = some (true, true) ∧
      rotateTwice sampleLib alwaysByAge sampleWorld = some (true, true) ∧
      rotateTwice sampleLib truncating sampleWorld = some (true, true) ∧
      rotateTwice sampleLib agedAtOnce sampleTicking = some (true, true) := by
  decide

/-- C6, amended: when `Count != 0`, `MaxSize` is positive, and `MinSize` is
positive or the age of the new file at the second call does not exceed
`MaxAge`, a `Rotate()` that returned true is followed, with no `Write` in
between, by a `Rotate()` that returns `(false, nil)` and performs no
transaction. -/
theorem rotate_twice (lib : Lib) (rotator : Rotator) (w : World) (out : Outcome Bool)
    (hcount : rotator.options.Count ≠ 0) (hmax : 0 < rotator.options.MaxSize)
    (hage : 0 < rotator.options.MinSize ∨
      out.rotator.writer.Age out.world.now ≤ rotator.options.MaxAge)
    (hfirst : Rotator.Rotate lib rotator w = some out) (htrue : out.ret = true) :
    Rotator.Rotate lib out.rotator out.world =
        some { ret := false, err := none, cleanup := false, rotator := out.rotator,
               world := out.world.clock.2 } ∧
      out.world.clock.2.fs = out.world.fs ∧ out.world.clock.2.trace = out.world.trace ∧
      rotateTwice lib rotator w = some (true, false) := by
  have hstate : out.rotator.options = rotator.options ∧ out.rotator.writer.size = 0 := by
    unfold Rotator.Rotate at hfirst
    by_cases hdue : rotator.NeedsRotation w.clock.1 = true
    · simp only [hdue, hcount] at hfirst
      cases hname : rotator.writer.Name with
      | none => simp [hname] at hfirst
      | some name =>
        simp only [hname] at hfirst
        have hst := reopen_size rotator.writer
          (name ++ ['.'] ++ lib.format w.clock.2.clock.1 rotator.options.Pattern) rotator.Mode
          w.clock.2.clock.2
        rcases hr : rotator.writer.Reopen
          (name ++ ['.'] ++ lib.format w.clock.2.clock.1 rotator.options.Pattern) rotator.Mode
          w.clock.2.clock.2 with ⟨e, writer, w1⟩
        rw [hr] at hst
        simp only [Bool.not_true, Bool.false_eq_true, if_false, hr] at hfirst
        cases e with
        | some e =>
          simp only [Option.some.injEq] at hfirst
          rw [← hfirst] at htrue
          simp at htrue
        | none =>
          simp only [Option.some.injEq] at hfirst
          rw [← hfirst]
          exact ⟨rfl, hst rfl⟩
    · simp only [hdue] at hfirst
      simp at hfirst
      rw [← hfirst] at htrue
      simp at htrue
  obtain ⟨hopts, hsize⟩ := hstate
  have hsecond : out.rotator.NeedsRotation out.world.clock.1 = false := by
    have hnow : out.world.clock.1 = out.world.now := rfl
    simp only [Rotator.NeedsRotation, FileWriter.Size, hsize, hopts, hnow]
    cases rotator.options.Enabled
    · simp
    · have h1 : ¬ (0 ≥ rotator.options.MaxSize) := by omega
      simp only [Bool.not_true, Bool.false_eq_true, if_false, h1]
      rcases hage with hmin | hold
      · have h2 : ¬ (0 ≥ rotator.options.MinSize) := by omega
        simp [h2]
      · have h3 : ¬ (out.rotator.writer.Age out.world.now > rotator.options.MaxAge) := by omega
        simp [h3]
  have hres : Rotator.Rotate lib out.rotator out.world =
      some { ret := false, err := none, cleanup := false, rotator := out.rotator,
             world := out.world.clock.2 } := by
    simp [Rotator.Rotate, hsecond]
  refine ⟨hres, rfl, rfl, ?_⟩
  simp [rotateTwice, hfirst, hres, htrue]

theorem rotate_twice_witness :
    sampleRotator.options.Count ≠ 0 ∧ 0 < sampleRotator.options.MaxSize ∧
      (0 < sampleRotator.options.MinSize ∨
        sampleRotated.rotator.writer.Age sampleRotated.world.now ≤
          sampleRotator.options.MaxAge) ∧
      Rotator.Rotate sampleLib sampleRotator sampleTicking = some sampleRotated ∧
      sampleRotated.ret = true ∧
      sampleRotated.rotator.writer.Age sampleRotated.world.now = 2 ∧
      rotateTwice sampleLib sampleRotator sampleTicking = some (true, false) :=
  ⟨by decide, by decide, by decide, rfl, rfl, by decide,
    (rotate_twice sampleLib sampleRotator sampleTicking sampleRotated (by decide) (by decide)
      (by decide) rfl rfl).2.2.2⟩

/-! ### Cleanup -/

/-- Appending single errors one by one with `multierr.Append`. -/
theorem appendAll_some (x : Error) (errs : List Err) :
    errs.foldl (fun acc e => multierrAppend acc (some (.single e))) (some x) =
      if errs = [] then some x else some (.multi (x.errors ++ errs)) := by
  induction errs generalizing x with
  | nil => simp
  | cons e rest ih =>
    rw [List.foldl_cons]
    have hstep : multierrAppend (some x) (some (.single e)) = some (.multi (x.errors ++ [e])) := rfl
    rw [hstep, ih]
    by_cases hr : rest = []
    · simp [hr]
    · simp [hr, Error.errors]

theorem appendAll_none (errs : List Err) :
    errs.foldl (fun acc e => multierrAppend acc (some (.single e))) none = combine errs := by
  cases errs with
  | nil => rfl
  | cons e rest =>
    rw [List.foldl_cons]
    have hstep : multierrAppend none (some (.single e)) = some (.single e) := rfl
    rw [hstep, appendAll_some]
    cases rest with
    | nil => simp [combine]
    | cons e2 rest2 => simp [combine, Error.errors]

theorem erase_eq_filter_of_nodup {α : Type} [DecidableEq α] (l : List α) (a : α) (h : l.Nodup) :
    l.erase a = l.filter (fun x => decide (x ≠ a)) := by
  rw [List.Nodup.erase_eq_filter h]
  congr 1
  funext x
  by_cases hx : x = a <;> simp [bne, hx]

theorem lookup_eraseAll (names : List PathName) (dir : AList (fun _ : PathName => Nat))
    (p : PathName) :
    (eraseAll names dir).lookup p = if p ∈ names then none else dir.lookup p := by
  induction names generalizing dir with
  | nil => simp [eraseAll]
  | cons v rest ih =>
    simp only [eraseAll, List.foldl_cons] at ih ⊢
    rw [ih]
    by_cases hp : p ∈ rest
    · simp [hp]
    · by_cases hv : p = v
      · subst hv
        simp [hp]
      · simp [hp, hv, AList.lookup_erase_ne hv]

theorem keys_eraseAll (names : List PathName) (dir : AList (fun _ : PathName => Nat)) :
    (eraseAll names dir).keys = dir.keys.filter (fun p => decide (p ∉ names)) := by
  induction names generalizing dir with
  | nil => simp [eraseAll]
  | cons v rest ih =>
    simp only [eraseAll, List.foldl_cons] at ih ⊢
    rw [ih, AList.keys_erase, erase_eq_filter_of_nodup _ _ dir.keys_nodup, List.filter_filter]
    congr 1
    funext p
    by_cases hv : p = v <;> by_cases hp : p ∈ rest <;> simp [hv, hp]

theorem multierrAppend_nil (err : GoError) : multierrAppend err none = err := by
  cases err <;> rfl

/-- The loop of `Cleanup` on distinct existing files: it calls `os.Remove` on
every one of them in order, whatever the earlier calls returned, erases those
whose removal was not disturbed and accumulates the errors of the others. -/
theorem removeVersions_spec (l : List PathName) (err : GoError) (w : World)
    (hnd : l.Nodup) (hpres : ∀ v ∈ l, w.fs.dir.lookup v ≠ none) :
    (removeVersions l err w).1 =
        ((removalResults l w.faults).filterMap Prod.snd).foldl
          (fun acc e => multierrAppend acc (some (.single e))) err ∧
      (removeVersions l err w).2.fs.dir =
        eraseAll (((removalResults l w.faults).filter (fun r => r.2.isNone)).map Prod.fst)
          w.fs.dir ∧
      (removeVersions l err w).2.fs.inodes = w.fs.inodes ∧
      (removeVersions l err w).2.trace = w.trace ++ l.map Syscall.remove ∧
      (removeVersions l err w).2.faults = w.faults.drop l.length := by
  induction l generalizing err w with
  | nil => simp [removeVersions, removalResults, eraseAll]
  | cons v rest ih =>
    have hfs := sys_fs w (.remove v)
    have htr := sys_trace w (.remove v)
    have hfa := sys_faults w (.remove v)
    have hf := sys_fault w (.remove v)
    rcases hs : w.sys (.remove v) with ⟨fault, w1⟩
    rw [hs] at hfs htr hfa hf
    simp only at hfs htr hfa hf
    have hnd2 : rest.Nodup := (List.nodup_cons.mp hnd).2
    have hv : v ∉ rest := (List.nodup_cons.mp hnd).1
    cases fault with
    | some fl =>
      have hrem : osRemove v w = (some (pathError "remove" (.errno fl.code)), w1) := by
        simp [osRemove, hs]
      have hpres2 : ∀ v2 ∈ rest, w1.fs.dir.lookup v2 ≠ none := by
        intro v2 hv2
        rw [hfs]
        exact hpres v2 (List.mem_cons_of_mem _ hv2)
      obtain ⟨h1, h2, h3, h4, h5⟩ :=
        ih (multierrAppend err (some (pathError "remove" (.errno fl.code)))) w1 hnd2 hpres2
      simp only [removeVersions, hrem, removalResults, ← hf, Option.map_some']
      rw [hfa] at h1 h2 h5
      rw [hfs] at h2 h3
      rw [htr] at h4
      refine ⟨?_, ?_, h3, ?_, ?_⟩
      · rw [h1]; rfl
      · rw [h2]; simp
      · rw [h4]; simp
      · rw [h5]; simp [List.drop_succ_cons, List.tail_drop]
    | none =>
      cases hl : w.fs.dir.lookup v with
      | none => exact absurd hl (hpres v (List.mem_cons_self _ _))
      | some ino =>
        have hex : ∃ w2, osRemove v w = (none, w2) ∧ w2.fs.dir = w.fs.dir.erase v ∧
            w2.fs.inodes = w.fs.inodes ∧ w2.trace = w.trace ++ [Syscall.remove v] ∧
            w2.faults = w.faults.tail :=
          ⟨{ w1 with fs := { w1.fs with dir := w1.fs.dir.erase v } },
            by simp [osRemove, hs, hfs, hl], by simp [hfs], by simp [hfs], htr, hfa⟩
        obtain ⟨w2, hrem, hd, hi, ht, hfl⟩ := hex
        have hpres2 : ∀ v2 ∈ rest, w2.fs.dir.lookup v2 ≠ none := by
          intro v2 hv2
          have hne : v2 ≠ v := fun h => hv (h ▸ hv2)
          rw [hd, AList.lookup_erase_ne hne]
          exact hpres v2 (List.mem_cons_of_mem _ hv2)
        obtain ⟨h1, h2, h3, h4, h5⟩ := ih err w2 hnd2 hpres2
        simp only [removeVersions, hrem, removalResults, ← hf, Option.map_none',
          multierrAppend_nil]
        rw [hfl] at h1 h2 h5
        rw [hd] at h2
        rw [hi] at h3
        rw [ht] at h4
        refine ⟨?_, ?_, h3, ?_, ?_⟩
        · rw [h1]; rfl
        · rw [h2]; simp [eraseAll]
        · rw [h4]; simp
        · rw [h5]; simp [List.drop_succ_cons, List.tail_drop]

theorem removalResults_quiet (l : List PathName) (faults : List (Option Fault))
    (hq : ∀ f ∈ faults, f = none) :
    removalResults l faults = l.map (fun v => (v, none)) := by
  induction l generalizing faults with
  | nil => rfl
  | cons v rest ih =>
    have htail : ∀ f ∈ faults.tail, f = none := fun f hf => hq f (List.mem_of_mem_tail hf)
    have hhead : faults.head?.join = none := by
      cases faults with
      | nil => rfl
      | cons f fs => simp [hq f (List.mem_cons_self _ _)]
    simp only [removalResults, hhead, ih _ htail, List.map_cons, Option.map_none']

theorem quiet_errors (l : List PathName) :
    (l.map (fun v => (v, (none : Option Err)))).filterMap Prod.snd = [] := by
  induction l with
  | nil => rfl
  | cons v rest ih => simp

theorem quiet_removed (l : List PathName) :
    ((l.map (fun v => (v, (none : Option Err)))).filter (fun r => r.2.isNone)).map Prod.fst =
      l := by
  induction l with
  | nil => rfl
  | cons v rest ih => simpa using ih

theorem removalResults_fst (l : List PathName) (faults : List (Option Fault)) :
    (removalResults l faults).map Prod.fst = l := by
  induction l generalizing faults with
  | nil => rfl
  | cons v rest ih => simp [removalResults, ih]

theorem versionsOf_sorted (matched : PathName → Bool) (fs : FS) :
    (versionsOf matched fs).Sorted (· ≤ ·) :=
  List.sorted_insertionSort _ _

theorem versionsOf_perm (matched : PathName → Bool) (fs : FS) :
    (versionsOf matched fs).Perm (fs.dir.keys.filter matched) :=
  List.perm_insertionSort _ _

theorem versionsOf_nodup (matched : PathName → Bool) (fs : FS) : (versionsOf matched fs).Nodup :=
  (versionsOf_perm matched fs).nodup_iff.mpr (fs.dir.keys_nodup.filter _)

theorem versionsOf_present (matched : PathName → Bool) (fs : FS) (v : PathName)
    (hv : v ∈ versionsOf matched fs) : fs.dir.lookup v ≠ none := by
  have hmem : v ∈ fs.dir.keys.filter matched := (versionsOf_perm matched fs).mem_iff.mp hv
  have hk : v ∈ fs.dir.keys := (List.mem_filter.mp hmem).1
  have : v ∈ fs.dir := AList.mem_keys.mp hk
  intro hnone
  exact (AList.lookup_eq_none.mp hnone) this

/-- Sorting commutes with filtering. -/
theorem sort_filter (q : PathName → Bool) (l : List PathName) :
    (l.filter q).insertionSort (· ≤ ·) = (l.insertionSort (· ≤ ·)).filter q := by
  apply List.eq_of_perm_of_sorted (r := (· ≤ ·))
  · exact (List.perm_insertionSort _ _).trans ((List.perm_insertionSort _ _).filter q).symm
  · exact List.sorted_insertionSort _ _
  · exact (List.sorted_insertionSort _ _).filter q

theorem filter_not_mem_take (l : List PathName) (j : Nat) (hnd : l.Nodup) :
    l.filter (fun p => decide (p ∉ l.take j)) = l.drop j := by
  induction l generalizing j with
  | nil => simp
  | cons a t ih =>
    cases j with
    | zero => simp
    | succ j =>
      have ha : a ∉ t := (List.nodup_cons.mp hnd).1
      have ht : t.Nodup := (List.nodup_cons.mp hnd).2
      simp only [List.take_succ_cons, List.drop_succ_cons]
      rw [List.filter_cons_of_neg (by simp)]
      rw [← ih j ht]
      apply List.filter_congr
      intro p hp
      have hpa : p ≠ a := fun h => ha (h ▸ hp)
      simp [hpa]

/-- The versions left once the first `j` of them are erased. -/
theorem versionsOf_eraseAll (matched : PathName → Bool) (fs fs2 : FS) (j : Nat)
    (hdir : fs2.dir = eraseAll ((versionsOf matched fs).take j) fs.dir) :
    versionsOf matched fs2 = (versionsOf matched fs).drop j := by
  unfold versionsOf
  rw [hdir, keys_eraseAll, List.filter_filter]
  have hcomm : (fs.dir.keys.filter fun a =>
      matched a && decide (a ∉ (versionsOf matched fs).take j)) =
      (fs.dir.keys.filter matched).filter
        (fun a => decide (a ∉ (versionsOf matched fs).take j)) := by
    rw [List.filter_filter]
    apply List.filter_congr
    intro x _
    exact Bool.and_comm _ _
  rw [hcomm, sort_filter]
  exact filter_not_mem_take _ j (versionsOf_nodup matched fs)

/-- The effect of `Cleanup` with a handle, `Count >= 0`, a well-formed pattern and a
readable directory: the versions beyond the `Count` greatest are passed to
`os.Remove` in ascending order, and the errors of the disturbed removals come
back combined. -/
theorem cleanup_spec (lib : Lib) (rotator : Rotator) (h : OsFile) (matched : PathName → Bool)
    (w : World) (hfile : rotator.writer.file = some h) (hk : 0 ≤ rotator.options.Count)
    (hm : lib.globMatch (h.name ++ ['.', '*']) = some matched)
    (hread : w.faults.head?.join = none) :
    ∃ w2, Rotator.Cleanup lib rotator w =
        some (combine ((removalResults ((versionsOf matched w.fs).take
          ((versionsOf matched w.fs).length - rotator.options.Count.toNat))
          w.faults.tail).filterMap Prod.snd), w2) ∧
      w2.fs.dir = eraseAll (((removalResults ((versionsOf matched w.fs).take
          ((versionsOf matched w.fs).length - rotator.options.Count.toNat))
          w.faults.tail).filter (fun r => r.2.isNone)).map Prod.fst) w.fs.dir ∧
      w2.fs.inodes = w.fs.inodes ∧
      w2.trace = w.trace ++ [Syscall.readDir (h.name ++ ['.', '*'])] ++
        ((versionsOf matched w.fs).take
          ((versionsOf matched w.fs).length - rotator.options.Count.toNat)).map Syscall.remove := by
  have hfs := sys_fs w (.readDir (h.name ++ ['.', '*']))
  have htr := sys_trace w (.readDir (h.name ++ ['.', '*']))
  have hfa := sys_faults w (.readDir (h.name ++ ['.', '*']))
  have hf := sys_fault w (.readDir (h.name ++ ['.', '*']))
  rcases hs : w.sys (.readDir (h.name ++ ['.', '*'])) with ⟨fault, w1⟩
  rw [hs] at hfs htr hfa hf
  simp only at hfs htr hfa hf
  rw [hread] at hf
  subst hf
  have hver : Rotator.Versions lib rotator w = some (.ok (versionsOf matched w.fs), w1) := by
    simp [Rotator.Versions, FileWriter.Name, hfile, filepathGlob, hm, hs, versionsOf, hfs]
  have hnot : ¬ rotator.options.Count < 0 := not_lt.mpr hk
  simp only [Rotator.Cleanup, hnot, if_false, hver]
  by_cases hrem : ((versionsOf matched w.fs).length : Int) - rotator.options.Count > 0
  · have hn : (((versionsOf matched w.fs).length : Int) - rotator.options.Count).toNat =
        (versionsOf matched w.fs).length - rotator.options.Count.toNat := by omega
    simp only [hrem, if_true, hn]
    have hnd : ((versionsOf matched w.fs).take
        ((versionsOf matched w.fs).length - rotator.options.Count.toNat)).Nodup :=
      (versionsOf_nodup matched w.fs).sublist (List.take_sublist _ _)
    have hpres : ∀ v ∈ (versionsOf matched w.fs).take
        ((versionsOf matched w.fs).length - rotator.options.Count.toNat),
        w1.fs.dir.lookup v ≠ none := by
      intro v hv
      rw [hfs]
      exact versionsOf_present matched w.fs v (List.mem_of_mem_take hv)
    obtain ⟨h1, h2, h3, h4, _⟩ := removeVersions_spec _ none w1 hnd hpres
    rw [appendAll_none, hfa] at h1
    rw [hfa, hfs] at h2
    rw [hfs] at h3
    rw [htr] at h4
    exact ⟨_, by rw [← h1], h2, h3, h4⟩
  · have hn : (versionsOf matched w.fs).length - rotator.options.Count.toNat = 0 := by omega
    simp only [hrem, if_false, hn, List.take_zero, removalResults, List.filterMap_nil,
      List.filter_nil, List.map_nil, combine, eraseAll, List.foldl_nil, List.append_nil]
    exact ⟨w1, rfl, by rw [hfs], by rw [hfs], htr⟩

/-- C7: with `Count = k >= 0`, a handle, a well-formed pattern and no
disturbed system call, `Cleanup()` returns nil after removing exactly the
first `n - k` entries of the ascending list of the `n` versions, in that
order: the versions left are the last `min n k` entries of that list, each
greater than every removed one, and no other file is touched.  With
`Count < 0` it returns nil at once and leaves the world as it is. -/
theorem cleanup_keeps_newest (lib : Lib) (rotator : Rotator) (h : OsFile)
    (matched : PathName → Bool) (w : World)
    (hfile : rotator.writer.file = some h) (hk : 0 ≤ rotator.options.Count)
    (hm : lib.globMatch (h.name ++ ['.', '*']) = some matched)
    (hq : ∀ f ∈ w.faults, f = none) :
    (∃ w2, Rotator.Cleanup lib rotator w = some (none, w2) ∧
      w2.trace = w.trace ++ [Syscall.readDir (h.name ++ ['.', '*'])] ++
        ((versionsOf matched w.fs).take
          ((versionsOf matched w.fs).length - rotator.options.Count.toNat)).map Syscall.remove ∧
      versionsOf matched w2.fs = (versionsOf matched w.fs).drop
        ((versionsOf matched w.fs).length - rotator.options.Count.toNat) ∧
      (versionsOf matched w2.fs).length =
        min (versionsOf matched w.fs).length rotator.options.Count.toNat ∧
      (∀ a ∈ (versionsOf matched w.fs).take
          ((versionsOf matched w.fs).length - rotator.options.Count.toNat),
        ∀ b ∈ versionsOf matched w2.fs, a < b) ∧
      ∀ p, w2.fs.file p =
        if p ∈ (versionsOf matched w.fs).take
          ((versionsOf matched w.fs).length - rotator.options.Count.toNat)
        then none else w.fs.file p) ∧
    ∀ (rotator0 : Rotator) (w0 : World), rotator0.options.Count < 0 →
      Rotator.Cleanup lib rotator0 w0 = some (none, w0) := by
  refine ⟨?_, ?_⟩
  · have hread : w.faults.head?.join = none := by
      cases hw : w.faults with
      | nil => rfl
      | cons f fs =>
        have := hq f (by rw [hw]; exact List.mem_cons_self _ _)
        simp [this]
    obtain ⟨w2, hc, hdir, hino, htr⟩ := cleanup_spec lib rotator h matched w hfile hk hm hread
    have htail : ∀ f ∈ w.faults.tail, f = none := fun f hf => hq f (List.mem_of_mem_tail hf)
    rw [removalResults_quiet _ _ htail] at hc hdir
    rw [quiet_errors] at hc
    rw [quiet_removed] at hdir
    have hleft := versionsOf_eraseAll matched w.fs w2.fs _ hdir
    refine ⟨w2, hc, htr, hleft, ?_, ?_, ?_⟩
    · rw [hleft, List.length_drop]
      omega
    · intro a ha b hb
      rw [hleft] at hb
      have hsorted := versionsOf_sorted matched w.fs
      have hnodup := versionsOf_nodup matched w.fs
      rw [← List.take_append_drop
        ((versionsOf matched w.fs).length - rotator.options.Count.toNat)
        (versionsOf matched w.fs)] at hsorted hnodup
      have hle : a ≤ b := (List.pairwise_append.mp hsorted).2.2 a ha b hb
      have hne : a ≠ b := fun hab => (List.nodup_append.mp hnodup).2.2 ha (hab ▸ hb)
      exact lt_of_le_of_ne hle hne
    · intro p
      simp only [FS.file, hdir, hino, lookup_eraseAll]
      by_cases hp : p ∈ (versionsOf matched w.fs).take
          ((versionsOf matched w.fs).length - rotator.options.Count.toNat)
      · simp [hp]
      · simp [hp]
  · intro rotator0 w0 hneg
    simp [Rotator.Cleanup, hneg]

theorem cleanup_keeps_newest_witness :
    (retainOne.writer.file = some sampleHandle ∧ 0 ≤ retainOne.options.Count ∧
      sampleLib.globMatch (sampleHandle.name ++ ['.', '*']) = some sampleMatched ∧
      (∀ f ∈ sampleVersions.faults, f = none)) ∧
    versionsOf sampleMatched sampleVersions.fs =
      [sampleLog ++ ['.', 'a'], sampleLog ++ ['.', 'b'], sampleLog ++ ['.', 'c']] ∧
    (Rotator.Cleanup sampleLib retainOne sampleVersions).map
        (fun r => (r.1, r.2.fs.dir.keys, r.2.trace)) =
      some (none, [['o', 't', 'h', 'e', 'r'], sampleLog ++ ['.', 'c'], sampleLog],
        [Syscall.readDir (sampleLog ++ ['.', '*']), Syscall.remove (sampleLog ++ ['.', 'a']),
          Syscall.remove (sampleLog ++ ['.', 'b'])]) ∧
    ∃ w2, Rotator.Cleanup sampleLib retainOne sampleVersions = some (none, w2) ∧
      versionsOf sampleMatched w2.fs = (versionsOf sampleMatched sampleVersions.fs).drop
        ((versionsOf sampleMatched sampleVersions.fs).length - retainOne.options.Count.toNat) :=
  ⟨⟨rfl, by decide, rfl, by decide⟩, by decide, by decide,
    match (cleanup_keeps_newest sampleLib retainOne sampleHandle sampleMatched sampleVersions rfl
      (by decide) rfl (by decide)).1 with
    | ⟨w2, hc, _, hleft, _⟩ => ⟨w2, hc, hleft⟩⟩

theorem combine_eq_none (errs : List Err) : combine errs = none ↔ errs = [] := by
  cases errs with
  | nil => simp [combine]
  | cons e rest => cases rest <;> simp [combine]

theorem combine_errors (errs : List Err) : ((combine errs).map Error.errors).getD [] = errs := by
  cases errs with
  | nil => rfl
  | cons e rest => cases rest <;> rfl

/-- C9: with `Count = k >= 0`, a handle, a well-formed pattern and a readable
directory, `Cleanup()` calls `os.Remove` on every one of the `n - k` oldest
versions, in order, whatever the earlier calls returned; a version is gone
afterwards exactly when its removal succeeded; the returned error is nil
exactly when every removal succeeded, and otherwise its members are the errors
of the failed removals, one per failed file, in list order. -/
theorem cleanup_collects_errors (lib : Lib) (rotator : Rotator) (h : OsFile)
    (matched : PathName → Bool) (w : World)
    (hfile : rotator.writer.file = some h) (hk : 0 ≤ rotator.options.Count)
    (hm : lib.globMatch (h.name ++ ['.', '*']) = some matched)
    (hread : w.faults.head?.join = none) :
    ∃ err w2, Rotator.Cleanup lib rotator w = some (err, w2) ∧
      w2.trace = w.trace ++ [Syscall.readDir (h.name ++ ['.', '*'])] ++
        ((versionsOf matched w.fs).take
          ((versionsOf matched w.fs).length - rotator.options.Count.toNat)).map Syscall.remove ∧
      (removalResults ((versionsOf matched w.fs).take
          ((versionsOf matched w.fs).length - rotator.options.Count.toNat))
          w.faults.tail).map Prod.fst =
        (versionsOf matched w.fs).take
          ((versionsOf matched w.fs).length - rotator.options.Count.toNat) ∧
      (∀ r ∈ removalResults ((versionsOf matched w.fs).take
          ((versionsOf matched w.fs).length - rotator.options.Count.toNat)) w.faults.tail,
        (w2.fs.dir.lookup r.1 = none ↔ r.2 = none)) ∧
      (err = none ↔ ∀ r ∈ removalResults ((versionsOf matched w.fs).take
          ((versionsOf matched w.fs).length - rotator.options.Count.toNat)) w.faults.tail,
        r.2 = none) ∧
      (err.map Error.errors).getD [] =
        (removalResults ((versionsOf matched w.fs).take
          ((versionsOf matched w.fs).length - rotator.options.Count.toNat))
          w.faults.tail).filterMap Prod.snd := by
  obtain ⟨w2, hc, hdir, _, htr⟩ := cleanup_spec lib rotator h matched w hfile hk hm hread
  have hfst := removalResults_fst ((versionsOf matched w.fs).take
    ((versionsOf matched w.fs).length - rotator.options.Count.toNat)) w.faults.tail
  have hnd : ((removalResults ((versionsOf matched w.fs).take
      ((versionsOf matched w.fs).length - rotator.options.Count.toNat))
      w.faults.tail).map Prod.fst).Nodup := by
    rw [hfst]
    exact (versionsOf_nodup matched w.fs).sublist (List.take_sublist _ _)
  refine ⟨_, w2, hc, htr, hfst, ?_, ?_, combine_errors _⟩
  · intro r hr
    rw [hdir, lookup_eraseAll]
    have hpres : w.fs.dir.lookup r.1 ≠ none := by
      apply versionsOf_present matched w.fs
      apply List.mem_of_mem_take
      rw [← hfst]
      exact List.mem_map_of_mem _ hr
    constructor
    · intro hgone
      split at hgone
      · rename_i hmem
        obtain ⟨r2, hr2, heq⟩ := List.mem_map.mp hmem
        obtain ⟨hr2mem, hr2none⟩ := List.mem_filter.mp hr2
        have hsame : r2 = r := List.inj_on_of_nodup_map hnd hr2mem hr heq
        rw [hsame] at hr2none
        simpa using hr2none
      · exact absurd hgone hpres
    · intro hnone
      have hmem : r.1 ∈ ((removalResults ((versionsOf matched w.fs).take
          ((versionsOf matched w.fs).length - rotator.options.Count.toNat))
          w.faults.tail).filter (fun r => r.2.isNone)).map Prod.fst :=
        List.mem_map_of_mem _ (List.mem_filter.mpr ⟨hr, by simp [hnone]⟩)
      rw [if_pos hmem]
  · rw [combine_eq_none, List.filterMap_eq_nil_iff]

theorem cleanup_collects_errors_witness :
    (truncating.writer.file = some sampleHandle ∧ 0 ≤ truncating.options.Count ∧
      sampleLib.globMatch (sampleHandle.name ++ ['.', '*']) = some sampleMatched ∧
      sampleDisturbed.faults.head?.join = none) ∧
    (Rotator.Cleanup sampleLib truncating sampleDisturbed).map
        (fun r => (r.1, r.2.fs.dir.keys, r.2.trace)) =
      some (some (.multi [.wrap "remove" (.errno 13), .wrap "remove" (.errno 1)]),
        [['o', 't', 'h', 'e', 'r'], sampleLog ++ ['.', 'c'], sampleLog ++ ['.', 'a'], sampleLog],
        [Syscall.readDir (sampleLog ++ ['.', '*']), Syscall.remove (sampleLog ++ ['.', 'a']),
          Syscall.remove (sampleLog ++ ['.', 'b']), Syscall.remove (sampleLog ++ ['.', 'c'])]) ∧
    ∃ err w2, Rotator.Cleanup sampleLib truncating sampleDisturbed = some (err, w2) ∧
      (err.map Error.errors).getD [] =
        (removalResults ((versionsOf sampleMatched sampleDisturbed.fs).take
          ((versionsOf sampleMatched sampleDisturbed.fs).length -
            truncating.options.Count.toNat))
          sampleDisturbed.faults.tail).filterMap Prod.snd :=
  ⟨⟨rfl, by decide, rfl, by decide⟩, by decide,
    match cleanup_collects_errors sampleLib truncating sampleHandle sampleMatched sampleDisturbed
      rfl (by decide) rfl (by decide) with
    | ⟨err, w2, hc, _, _, _, _, hmembers⟩ => ⟨err, w2, hc, hmembers⟩⟩

/-! ### The rotator as a writer -/

/-- The handle's `Write` issues at most the one `write` call and touches no
directory entry. -/
theorem write_trace (writer : FileWriter) (buf : List Byte) (w : World) :
    ((writer.Write buf w).2.2.trace = w.trace ∨
      ∃ ino, (writer.Write buf w).2.2.trace = w.trace ++ [Syscall.write ino buf]) ∧
      (writer.Write buf w).2.2.fs.dir = w.fs.dir := by
  unfold FileWriter.Write osFileWrite
  cases hfile : writer.file with
  | none => exact ⟨Or.inl rfl, rfl⟩
  | some h =>
    simp only
    by_cases hc : h.closed = true
    · simp [hc]
    · simp only [hc, if_false]
      have htr := sys_trace w (.write h.ino buf)
      have hfs := sys_fs w (.write h.ino buf)
      rcases hs : w.sys (.write h.ino buf) with ⟨fault, w1⟩
      rw [hs] at htr hfs
      simp only at htr hfs
      simp only
      cases hino : w1.fs.inodes.get? h.ino with
      | none => exact ⟨Or.inr ⟨h.ino, htr⟩, by simp [hfs]⟩
      | some f => exact ⟨Or.inr ⟨h.ino, htr⟩, by simp [hfs]⟩

/-- C8: the rotator's `Write` returns the count of the handle's `Write`.
When the handle reports an error, that error is returned and the world is the
one the handle's `Write` left, in which at most a `write` call was added to
the trace and no directory entry changed: `Rotate` is not run.  When the
handle reports none, `Rotate` is run once on the state after the write, and
its error, its `Cleanup` and its final state are those of the call. -/
theorem rotator_write (lib : Lib) (rotator : Rotator) (chunk : List Byte) (w : World) :
    (∀ e, (rotator.writer.Write chunk w).1.2 = some e →
      Rotator.Write lib rotator chunk w =
        some { ret := (rotator.writer.Write chunk w).1.1, err := some e, cleanup := false,
               rotator := { rotator with writer := (rotator.writer.Write chunk w).2.1 },
               world := (rotator.writer.Write chunk w).2.2 }) ∧
    ((rotator.writer.Write chunk w).1.2 = none →
      Rotator.Write lib rotator chunk w =
        (Rotator.Rotate lib { rotator with writer := (rotator.writer.Write chunk w).2.1 }
          (rotator.writer.Write chunk w).2.2).map
          (fun out => { ret := (rotator.writer.Write chunk w).1.1, err := out.err,
                        cleanup := out.cleanup, rotator := out.rotator,
                        world := out.world })) ∧
    (∀ out, Rotator.Write lib rotator chunk w = some out →
      out.ret = (rotator.writer.Write chunk w).1.1) ∧
    ((rotator.writer.Write chunk w).2.2.trace = w.trace ∨
      ∃ ino, (rotator.writer.Write chunk w).2.2.trace = w.trace ++ [Syscall.write ino chunk]) ∧
    (rotator.writer.Write chunk w).2.2.fs.dir = w.fs.dir := by
  refine ⟨?_, ?_, ?_, (write_trace _ _ _).1, (write_trace _ _ _).2⟩
  · intro e he
    unfold Rotator.Write
    rcases hw : rotator.writer.Write chunk w with ⟨⟨n, err⟩, writer, w1⟩
    rw [hw] at he
    simp only at he
    subst he
    rfl
  · intro he
    unfold Rotator.Write
    rcases hw : rotator.writer.Write chunk w with ⟨⟨n, err⟩, writer, w1⟩
    rw [hw] at he
    simp only at he
    subst he
    simp only
    cases Rotator.Rotate lib { rotator with writer := writer } w1 <;> rfl
  · intro out hout
    unfold Rotator.Write at hout
    rcases hw : rotator.writer.Write chunk w with ⟨⟨n, err⟩, writer, w1⟩
    rw [hw] at hout
    cases err with
    | some e =>
      simp only [Option.some.injEq] at hout
      rw [← hout]
    | none =>
      simp only at hout
      cases hr : Rotator.Rotate lib { rotator with writer := writer } w1 with
      | none => simp [hr] at hout
      | some o =>
        simp only [hr, Option.some.injEq] at hout
        rw [← hout]

theorem rotator_write_witness :
    (sampleRotator.writer.Write hello sampleShort).1.2 =
        some (pathError "write" (.errno 28)) ∧
      (Rotator.Write sampleLib sampleRotator hello sampleShort).map
        (fun out => (out.ret, out.err, out.cleanup, out.world.fs.dir.keys)) =
        some (5, some (pathError "write" (.errno 28)), false, [sampleLog]) ∧
      (sampleRotator.writer.Write hello sampleWorld).1.2 = none ∧
      (Rotator.Write sampleLib sampleRotator hello sampleWorld).map
        (fun out => (out.ret, out.err, out.cleanup, out.world.fs.dir.keys)) =
        some (12, none, true, [sampleLog, sampleLog ++ ['.', 'v', '1']]) ∧
      Rotator.Write sampleLib sampleRotator hello sampleShort =
        some { ret := (sampleRotator.writer.Write hello sampleShort).1.1,
               err := some (pathError "write" (.errno 28)), cleanup := false,
               rotator := { sampleRotator with
                 writer := (sampleRotator.writer.Write hello sampleShort).2.1 },
               world := (sampleRotator.writer.Write hello sampleShort).2.2 } :=
  ⟨by decide, by decide, by decide, by decide,
    (rotator_write sampleLib sampleRotator hello sampleShort).1 _ (by decide)⟩

/-! ### The terminal error of the reader -/

/-- C10, as stated, fails for a cause that wraps `context.Canceled` without
being it: when the source's `Read` fails with such an error, that error is the
cause, the watcher records `io.EOF`, and `Read` returns `io.EOF`, not the
source's own error. -/
theorem watcher_wrapped_counterexample :
    Error.single (.wrap "read" .canceled) ≠ .single .canceled ∧
      Error.single (.wrap "read" .canceled) ≠ .single .deadlineExceeded ∧
      (afterSourceError (.single (.wrap "read" .canceled))).map (fun r => r.cause) =
        some (some (.single (.wrap "read" .canceled))) ∧
      ((afterSourceError (.single (.wrap "read" .canceled))).bind CancelReader.watcher).map
        (fun r => r.err) = some (some (.single .eof)) ∧
      (((afterSourceError (.single (.wrap "read" .canceled))).bind CancelReader.watcher).bind
        (fun r => r.Read sampleBuf)).map (fun res => res.1) =
        some (0, some (.single .eof)) := by
  decide

/-- C10, amended: once the context is cancelled with cause `c`, `watcher`
closes the handoff and records `io.EOF` when `errors.Is(c, context.Canceled)`,
that is when `c` is that error or wraps it, `io.ErrNoProgress` when that is
not so and `errors.Is(c, context.DeadlineExceeded)`, and `c` itself otherwise;
a `Read` called from then on returns 0 bytes, that error, and leaves the
buffer alone. -/
theorem watcher_terminal (reader : CancelReader) (c : Error) (buf : List Byte)
    (hcause : reader.cause = some c) (hrun : reader.watcherDone = false)
    (hidle : reader.held = .nothing) :
    ∃ r2, reader.watcher = some r2 ∧ r2.data.closed = true ∧
      r2.Read buf = some ((0, r2.err), buf, r2) ∧
      r2.err = some (if errorsIs c .canceled then .single .eof
        else if errorsIs c .deadlineExceeded then .single .noProgress else c) ∧
      (c = .single .canceled → r2.err = some (.single .eof)) ∧
      (c = .single .deadlineExceeded → r2.err = some (.single .noProgress)) ∧
      (errorsIs c .canceled = false → errorsIs c .deadlineExceeded = false →
        r2.err = some c) := by
  have herr : (if errorsIs c .canceled then some (Error.single .eof)
      else if errorsIs c .deadlineExceeded then some (Error.single .noProgress)
      else some c) =
      some (if errorsIs c .canceled then .single .eof
        else if errorsIs c .deadlineExceeded then .single .noProgress else c) := by
    split
    · rfl
    · split <;> rfl
  obtain ⟨d, e, c0, wk, wd, hd⟩ := reader
  simp only at hcause hrun hidle
  subst hcause hrun hidle
  refine ⟨_, by simp only [CancelReader.watcher]; rfl, rfl, ?_, herr, ?_, ?_, ?_⟩
  · cases wk <;> rfl
  · intro hc
    subst hc
    rfl
  · intro hc
    subst hc
    rfl
  · intro h1 h2
    simp only [h1, h2]
    rfl

theorem watcher_terminal_witness :
    (NewCancelReader.Close.2.cause = some (.single .closedPipe) ∧
      NewCancelReader.Close.2.watcherDone = false ∧
      NewCancelReader.Close.2.held = .nothing) ∧
    (NewCancelReader.Close.2.watcher).map (fun r => r.err) =
      some (some (.single .closedPipe)) ∧
    ((NewCancelReader.stop none).watcher).map (fun r => r.err) = some (some (.single .eof)) ∧
    ((NewCancelReader.stop (some (.single .deadlineExceeded))).watcher).map (fun r => r.err) =
      some (some (.single .noProgress)) ∧
    ((afterSourceError (.single .unexpectedEOF)).bind CancelReader.watcher).map (fun r => r.err) =
      some (some (.single .unexpectedEOF)) ∧
    ((afterSourceError (.single .eof)).bind CancelReader.watcher).map (fun r => r.err) =
      some (some (.single .eof)) ∧
    ∃ r2, NewCancelReader.Close.2.watcher = some r2 ∧ r2.data.closed = true ∧
      r2.Read hello = some ((0, r2.err), hello, r2) ∧ r2.err = some (.single .closedPipe) :=
  ⟨⟨rfl, rfl, rfl⟩, by decide, by decide, by decide, by decide, by decide,
    match watcher_terminal NewCancelReader.Close.2 (.single .closedPipe) hello rfl rfl rfl with
    | ⟨r2, hw, hclosed, hread, _, _, _, hself⟩ =>
      ⟨r2, hw, hclosed, hread, hself (by decide) (by decide)⟩⟩

/-! ### Reading from the handoff -/

theorem settled_new : Settled NewCancelReader := by
  intro h
  cases h

theorem stop_fields (reader : CancelReader) (cause : GoError) :
    (reader.stop cause).data = reader.data ∧ (reader.stop cause).err = reader.err ∧
      (reader.stop cause).worker = reader.worker ∧
      (reader.stop cause).watcherDone = reader.watcherDone ∧
      (∀ c, reader.cause = some c → (reader.stop cause).cause = some c) := by
  unfold CancelReader.stop
  cases hc : reader.cause with
  | none => simp
  | some c => simp [hc]

theorem settled_stop (reader : CancelReader) (cause : GoError) (hs : Settled reader) :
    Settled (reader.stop cause) := by
  obtain ⟨hd, he, hw, hwd, hc⟩ := stop_fields reader cause
  intro hclosed
  rw [hd] at hclosed
  obtain ⟨h1, h2, c, h3, h4⟩ := hs hclosed
  exact ⟨by rw [hwd]; exact h1, by rw [hw]; exact h2, c, hc c h3, by rw [he]; exact h4⟩

theorem settled_watcher (reader r2 : CancelReader) (hw : reader.watcher = some r2) :
    Settled r2 := by
  unfold CancelReader.watcher at hw
  cases hd : reader.watcherDone with
  | true => simp [hd] at hw
  | false =>
    cases hc : reader.cause with
    | none => simp [hd, hc] at hw
    | some c =>
      simp only [hd, hc, Bool.false_eq_true, if_false, Option.some.injEq] at hw
      subst hw
      intro _
      refine ⟨rfl, ?_, c, rfl, ?_⟩
      · intro chunk err
        cases reader.worker <;> simp
      · simp only [terminalOf]
        split
        · rfl
        · split <;> rfl

/-- A state that differs from a settled one only in a worker that is not
handing over a chunk is settled. -/
theorem settled_of_worker (reader r2 : CancelReader) (hs : Settled reader)
    (hd : r2.data = reader.data) (he : r2.err = reader.err)
    (hwd : r2.watcherDone = reader.watcherDone)
    (hc : ∀ c, reader.cause = some c → r2.cause = some c)
    (hw : ∀ chunk err, r2.worker ≠ .sending chunk err) : Settled r2 := by
  intro hclosed
  rw [hd] at hclosed
  obtain ⟨h1, _, c, h3, h4⟩ := hs hclosed
  exact ⟨by rw [hwd]; exact h1, hw, c, hc c h3, by rw [he]; exact h4⟩

theorem settled_worker (reader r2 : CancelReader) (src : List Byte × GoError)
    (hs : Settled reader) (hw : reader.workerStep src = some r2) : Settled r2 := by
  unfold CancelReader.workerStep at hw
  cases hwk : reader.worker with
  | checking =>
    simp only [hwk] at hw
    split at hw <;> simp only [Option.some.injEq] at hw <;> subst hw <;>
      exact settled_of_worker reader _ hs rfl rfl rfl (fun _ h => h) (by intro _ _ h; cases h)
  | reading =>
    simp only [hwk] at hw
    split at hw
    · split at hw
      · simp only [Option.some.injEq] at hw
        subst hw
        exact settled_of_worker reader _ hs rfl rfl rfl (fun _ h => h) (by intro _ _ h; cases h)
      · rename_i hopen
        simp only [Option.some.injEq] at hw
        subst hw
        intro hclosed
        exact absurd hclosed hopen
    · simp only [Option.some.injEq] at hw
      subst hw
      exact settled_of_worker reader _ hs rfl rfl rfl (fun _ h => h) (by intro _ _ h; cases h)
  | sending chunk err => simp [hwk] at hw
  | sent err =>
    simp only [hwk] at hw
    cases err with
    | none =>
      simp only [Option.some.injEq] at hw
      subst hw
      exact settled_of_worker reader _ hs rfl rfl rfl (fun _ h => h) (by intro _ _ h; cases h)
    | some e =>
      simp only [Option.some.injEq] at hw
      subst hw
      obtain ⟨hd, he, _, hwd, hc⟩ := stop_fields reader (some e)
      exact settled_of_worker reader _ hs hd he hwd hc (by intro _ _ h; cases h)
  | exited => simp [hwk] at hw

theorem settled_receive (reader r2 : CancelReader) (hs : Settled reader)
    (hr : reader.receive = some r2) : Settled r2 := by
  unfold CancelReader.receive at hr
  cases hh : reader.held with
  | chunk bytes => simp [hh] at hr
  | closed => simp [hh] at hr
  | nothing =>
    simp only [hh] at hr
    cases hwk : reader.worker with
    | sending chunk err =>
      simp only [hwk, Option.some.injEq] at hr
      subst hr
      exact settled_of_worker reader _ hs rfl rfl rfl (fun _ h => h) (by intro _ _ h; cases h)
    | checking =>
      simp only [hwk] at hr
      split at hr
      · simp only [Option.some.injEq] at hr
        subst hr
        exact settled_of_worker reader _ hs rfl rfl rfl (fun _ h => h)
          (by intro _ _ h; cases h)
      · cases hr
    | reading =>
      simp only [hwk] at hr
      split at hr
      · simp only [Option.some.injEq] at hr
        subst hr
        exact settled_of_worker reader _ hs rfl rfl rfl (fun _ h => h)
          (by intro _ _ h; cases h)
      · cases hr
    | sent err =>
      simp only [hwk] at hr
      split at hr
      · simp only [Option.some.injEq] at hr
        subst hr
        exact settled_of_worker reader _ hs rfl rfl rfl (fun _ h => h)
          (by intro _ _ h; cases h)
      · cases hr
    | exited =>
      simp only [hwk] at hr
      split at hr
      · simp only [Option.some.injEq] at hr
        subst hr
        exact settled_of_worker reader _ hs rfl rfl rfl (fun _ h => h)
          (by intro _ _ h; cases h)
      · cases hr

theorem settled_finish (reader : CancelReader) (buf : List Byte)
    (res : (Nat × GoError) × List Byte × CancelReader)
    (hs : Settled reader) (hr : reader.finish buf = some res) : Settled res.2.2 := by
  have hkeep : Settled { reader with held := .nothing } := hs
  unfold CancelReader.finish at hr
  cases hh : reader.held with
  | nothing => simp [hh] at hr
  | closed =>
    simp only [hh, Option.some.injEq] at hr
    subst hr
    exact hkeep
  | chunk bytes =>
    simp only [hh] at hr
    split at hr <;> simp only [Option.some.injEq] at hr <;> subst hr <;> exact hkeep

theorem settled_read (reader : CancelReader) (buf : List Byte)
    (res : (Nat × GoError) × List Byte × CancelReader)
    (hs : Settled reader) (hr : reader.Read buf = some res) : Settled res.2.2 := by
  unfold CancelReader.Read at hr
  cases hrec : reader.receive with
  | none => simp [hrec] at hr
  | some received =>
    simp only [hrec] at hr
    exact settled_finish received buf res (settled_receive reader received hs hrec) hr

theorem settled_step (reader r2 : CancelReader) (ev : Event) (hs : Settled reader)
    (hstep : reader.step ev = some r2) : Settled r2 := by
  cases ev with
  | cancel cause =>
    simp only [CancelReader.step, Option.some.injEq] at hstep
    subst hstep
    exact settled_stop reader cause hs
  | close =>
    simp only [CancelReader.step, CancelReader.Close, Option.some.injEq] at hstep
    subst hstep
    exact settled_stop reader _ hs
  | watcher => exact settled_watcher reader r2 hstep
  | worker src => exact settled_worker reader r2 src hs hstep
  | read buf =>
    simp only [CancelReader.step] at hstep
    cases hr : reader.Read buf with
    | none => simp [hr] at hstep
    | some res =>
      simp only [hr, Option.map_some', Option.some.injEq] at hstep
      subst hstep
      exact settled_read reader buf res hs hr
  | receive => exact settled_receive reader r2 hs hstep
  | finish buf =>
    simp only [CancelReader.step] at hstep
    cases hr : reader.finish buf with
    | none => simp [hr] at hstep
    | some res =>
      simp only [hr, Option.map_some', Option.some.injEq] at hstep
      subst hstep
      exact settled_finish reader buf res hs hr

/-- Every state a reader can reach is settled. -/
theorem settled_run (events : List Event) (reader r2 : CancelReader) (hs : Settled reader)
    (hrun : CancelReader.run events reader = some r2) : Settled r2 := by
  induction events generalizing reader with
  | nil =>
    simp only [CancelReader.run, Option.some.injEq] at hrun
    subst hrun
    exact hs
  | cons ev rest ih =>
    simp only [CancelReader.run] at hrun
    cases hstep : reader.step ev with
    | none => simp [hstep] at hrun
    | some next =>
      simp only [hstep] at hrun
      exact ih next (settled_step reader next ev hs hstep) hrun

/-- A `Read` that runs from its receive to its return with no step of the
worker in between, on a chunk the worker offers, returns
`n = min(len(b), len(c))`, leaves `b` holding the first `n` bytes of `c`
followed by the rest of `b`, and returns `io.ErrShortBuffer` exactly when
`len(b) < len(c)` and nil otherwise; and in every state a reader reaches in
which the handoff is closed and no call is in progress, `Read` returns 0 and
the recorded error, which is the terminal error of the cause, whatever the
buffer, and leaves the buffer alone. -/
theorem read_copies_chunk (reader : CancelReader) (chunk : List Byte) (err : GoError)
    (buf : List Byte) (hsend : reader.worker = .sending chunk err)
    (hidle : reader.held = .nothing) :
    reader.Read buf =
        some ((min buf.length chunk.length,
               if buf.length < chunk.length then some (.single .shortBuffer) else none),
              chunk.take (min buf.length chunk.length) ++ buf.drop (min buf.length chunk.length),
              { reader with worker := .sent err }) ∧
      ∀ (events : List Event) (r2 : CancelReader) (buf2 : List Byte),
        CancelReader.run events NewCancelReader = some r2 → r2.data.closed = true →
          r2.held = .nothing →
          r2.Read buf2 = some ((0, r2.err), buf2, r2) ∧
            ∃ c, r2.cause = some c ∧ r2.err = some (terminalOf c) := by
  refine ⟨?_, ?_⟩
  · obtain ⟨d, e, c0, wk, wd, hd⟩ := reader
    simp only at hsend hidle
    subst hsend hidle
    simp only [CancelReader.Read, CancelReader.receive, CancelReader.finish]
    by_cases hlt : buf.length < chunk.length
    · have hmin : min buf.length chunk.length = buf.length := Nat.min_eq_left (Nat.le_of_lt hlt)
      simp [hmin, hlt]
    · have hmin : min buf.length chunk.length = chunk.length :=
        Nat.min_eq_right (Nat.le_of_not_lt hlt)
      simp [hmin, hlt]
  · intro events r2 buf2 hrun hclosed hidle2
    obtain ⟨_, hnot, c, hc, he⟩ := settled_run events NewCancelReader r2 settled_new hrun hclosed
    refine ⟨?_, c, hc, he⟩
    clear hrun hc he
    obtain ⟨d, e, c0, wk, wd, hd⟩ := r2
    simp only at hclosed hidle2 hnot
    subst hidle2
    cases wk with
    | sending chunk2 err2 => exact absurd rfl (hnot chunk2 err2)
    | checking => simp [CancelReader.Read, CancelReader.receive, CancelReader.finish, hclosed]
    | reading => simp [CancelReader.Read, CancelReader.receive, CancelReader.finish, hclosed]
    | sent e2 => simp [CancelReader.Read, CancelReader.receive, CancelReader.finish, hclosed]
    | exited => simp [CancelReader.Read, CancelReader.receive, CancelReader.finish, hclosed]

theorem read_copies_chunk_witness :
    CancelReader.run holdingHello NewCancelReader = some sampleHolding ∧
      sampleHolding.worker = .sending hello none ∧
      sampleHolding.Read [0, 0, 0, 0] =
        some ((4, some (.single .shortBuffer)), [72, 101, 108, 108],
          { sampleHolding with worker := .sent none }) ∧
      sampleHolding.Read sampleBuf =
        some ((12, none), hello ++ [0, 0, 0, 0], { sampleHolding with worker := .sent none }) :=
  ⟨by decide, rfl, (read_copies_chunk sampleHolding hello none [0, 0, 0, 0] rfl rfl).1,
    (read_copies_chunk sampleHolding hello none sampleBuf rfl rfl).1⟩

/-- C11 does not hold of the code: the chunk the worker hands over is
`buffer[:n]`, a window on its one buffer and not a copy, so a `Read` copies
the bytes that buffer holds when its `copy` runs.  On the schedule in which
the caller's `Read` receives `hello` and the worker's next `src.Read` stores
`goodbye` before the copy, the call returns 12 and a nil error with the bytes
of `goodbye` followed by the last four of `hello`, the call after it returns
`goodbye` once more, and the first eight bytes of `hello` reach no caller;
with no step of the worker in between the same call returns `hello`.  The
count, and the error `io.ErrShortBuffer` exactly for a shorter buffer, are as
claimed for every chunk and buffer. -/
theorem read_copies_refilled_buffer :
    (CancelReader.run (holdingHello ++ [.receive]) NewCancelReader).map (fun r => r.held) =
      some (.chunk hello) ∧
    (CancelReader.run (holdingHello ++ [.receive]) NewCancelReader).bind
        (fun r => (r.finish sampleBuf).map (fun res => (res.1, res.2.1))) =
      some ((12, none), hello ++ [0, 0, 0, 0]) ∧
    (CancelReader.run overtaken NewCancelReader).map (fun r => (r.held, r.worker)) =
      some (.chunk (goodbye ++ [114, 108, 100, 10]), .sending goodbye none) ∧
    (CancelReader.run overtaken NewCancelReader).bind
        (fun r => (r.finish sampleBuf).map (fun res => (res.1, res.2.1))) =
      some ((12, none), goodbye ++ [114, 108, 100, 10] ++ [0, 0, 0, 0]) ∧
    (CancelReader.run (overtaken ++ [.finish sampleBuf]) NewCancelReader).bind
        (fun r => (r.Read sampleBuf).map (fun res => (res.1, res.2.1))) =
      some ((8, none), goodbye ++ List.replicate 8 0) ∧
    (∀ (reader : CancelReader) (chunk buf : List Byte),
      (({ reader with held := .chunk chunk } : CancelReader).finish buf).map
          (fun res => (res.1, res.2.1)) =
        some ((min buf.length chunk.length,
               if buf.length < chunk.length then some (.single .shortBuffer) else none),
              chunk.take (min buf.length chunk.length) ++
                buf.drop (min buf.length chunk.length))) := by
  refine ⟨by decide, by decide, by decide, by decide, by decide, ?_⟩
  intro reader chunk buf
  simp only [CancelReader.finish]
  by_cases hlt : buf.length < chunk.length
  · have hmin : min buf.length chunk.length = buf.length := Nat.min_eq_left (Nat.le_of_lt hlt)
    simp [hmin, hlt]
  · have hmin : min buf.length chunk.length = chunk.length :=
      Nat.min_eq_right (Nat.le_of_not_lt hlt)
    simp [hmin, hlt]

/-! ### Cancellation while a chunk is pending -/

/-- C12 does not hold of the code: when the worker is blocked handing over a
chunk, the context is cancelled, and the watcher runs before the caller's next
`Read`, closing the channel makes the pending send panic, so that `Read`
returns 0 bytes and the terminal error and the chunk is lost, for every chunk,
cause and buffer.  Shown also on the reader that holds `hello`, after an
external cancel and after `Close()`; when `Read` comes before the watcher it
does return the whole chunk with a nil error, and the `Read` after the watcher
returns the terminal error. -/
theorem cancel_drops_chunk :
    (∀ (chunk : List Byte) (err cause : GoError) (buf : List Byte),
      (CancelReader.run [.cancel cause, .watcher]
          { NewCancelReader with worker := .sending chunk err }).bind
        (fun r => (r.Read buf).map (fun res => (res.1, res.2.1, res.2.2.worker))) =
      some ((0, some (terminalOf (cause.getD (.single .canceled)))), buf, Worker.exited)) ∧
    (CancelReader.run (holdingHello ++ [.cancel none, .watcher]) NewCancelReader).bind
        (fun r => (r.Read sampleBuf).map (fun res => (res.1, res.2.1))) =
      some ((0, some (.single .eof)), sampleBuf) ∧
    (CancelReader.run (holdingHello ++ [.close, .watcher]) NewCancelReader).bind
        (fun r => (r.Read sampleBuf).map (fun res => (res.1, res.2.1))) =
      some ((0, some (.single .closedPipe)), sampleBuf) ∧
    (CancelReader.run (holdingHello ++ [.cancel none]) NewCancelReader).bind
        (fun r => (r.Read sampleBuf).map (fun res => (res.1, res.2.1))) =
      some ((12, none), hello ++ [0, 0, 0, 0]) ∧
    (CancelReader.run (holdingHello ++ [.cancel none, .read sampleBuf, .watcher])
        NewCancelReader).bind
        (fun r => (r.Read sampleBuf).map (fun res => (res.1, res.2.1))) =
      some ((0, some (.single .eof)), sampleBuf) := by
  refine ⟨?_, by decide, by decide, by decide, by decide⟩
  intro chunk err cause buf
  simp only [CancelReader.run, CancelReader.step, CancelReader.stop, CancelReader.watcher,
    NewCancelReader, Bool.false_eq_true, if_false, Option.bind_some, CancelReader.Read,
    CancelReader.receive, CancelReader.finish, if_true, Option.map_some', terminalOf]
  split <;> rename_i h1
  · simp [h1]
  · split <;> rename_i h2 <;> simp [h1, h2]

end Glug
